import Mathlib

/-!
Shallow embedding of the Secret-Santa assignment engine (the shuffler in the
repository's main script: `runShuffle`, `tryCreateCrossGroupAssignment`,
`shuffleArray`, and the simpler legacy variant `tryCreateAssignment`).

Identifiers are JavaScript strings.  JavaScript objects used as string-keyed
maps (`giverToRecipient`, `recipientToGiver`) are embedded as association
lists with JS-object semantics: an assignment `obj[k] = v` overwrites the
entry when the key is present and appends it otherwise, so `Object.keys`
order and count are preserved.  `Math.random()` draws are embedded as an
explicit stream of natural numbers; the value used where the source computes
`Math.floor(Math.random() * n)` is `stream i % n`, which ranges over exactly
the same set `[0, n)` of indices, so quantifying over all streams covers all
possible runtime draws.
-/

set_option maxHeartbeats 1000000

namespace Presents

/-- `{ id, name }` person record. -/
structure Person where
  id : String
  name : String
  deriving DecidableEq, Repr

/-- `{ id, name, memberIds }` group record. -/
structure Group where
  id : String
  name : String
  memberIds : List String
  deriving DecidableEq, Repr

/-- `{ id, occasionId, createdAt, assignments }` edition record.  An
assignment `{ giverId, recipientId }` is embedded as the pair
`(giverId, recipientId)`. -/
structure Edition where
  id : String
  occasionId : String
  createdAt : Nat
  assignments : List (String × String)
  deriving DecidableEq, Repr

/-- `{ id, person1Id, person2Id }` exclusion record. -/
structure Exclusion where
  id : String
  person1Id : String
  person2Id : String
  deriving DecidableEq, Repr

/-- `{ id, giverId, recipientId }` inclusion record. -/
structure Inclusion where
  id : String
  giverId : String
  recipientId : String
  deriving DecidableEq, Repr

/-- The localStorage-backed collections read by `runShuffle`
(`getPersons`, `getGroups`, `getEditions`, `getExclusions`, `getInclusions`). -/
structure Store where
  persons : List Person
  groups : List Group
  editions : List Edition
  exclusions : List Exclusion
  inclusions : List Inclusion
  deriving DecidableEq, Repr

/-- JS-object read `m[k]`: `none` plays the role of `undefined`. -/
def objGet (m : List (String × String)) (k : String) : Option String :=
  match m with
  | [] => none
  | (k', v) :: rest => if k' = k then some v else objGet rest k

/-- JS-object write `m[k] = v`: overwrite if the key is present, append
otherwise (preserving `Object.keys` insertion order). -/
def objSet (m : List (String × String)) (k v : String) : List (String × String) :=
  match m with
  | [] => [(k, v)]
  | (k', v') :: rest => if k' = k then (k, v) :: rest else (k', v') :: objSet rest k v

/-- `Object.keys m`. -/
def objKeys (m : List (String × String)) : List String :=
  m.map Prod.fst

/-- JS truthiness of a string-valued map read: `undefined` and the empty
string are falsy, every other string is truthy. -/
def optTruthy (o : Option String) : Bool :=
  match o with
  | some s => decide (s ≠ "")
  | none => false

/-- The `forbidden` object: a map from giver id to a `Set` of recipient ids;
`none` means the key is absent (`forbidden[g]` is `undefined`). -/
abbrev Forb := String → Option (List String)

/-- The check `forbidden[g] && forbidden[g].has(r)` (a present `Set` is
always truthy). -/
def isForbidden (forbidden : Forb) (g r : String) : Bool :=
  match forbidden g with
  | some s => decide (r ∈ s)
  | none => false

/-- `forbidden[g].add(r)` guarded by `if (forbidden[g])`: inserts `r` into
the set at key `g` when that key is present, otherwise leaves the map
unchanged (`Option.map` is the identity on an absent key, so the guard is
honoured).  `Set.add` never duplicates, hence `List.insert`. -/
def addForb (f : Forb) (g r : String) : Forb :=
  fun x => if x = g then (f g).map (fun s => s.insert r) else f x

/-- Membership in the forbidden set at key `g`. -/
def forbMem (f : Forb) (g r : String) : Prop :=
  ∃ s, f g = some s ∧ r ∈ s

/-- Randomness consumed by one call of `tryCreateCrossGroupAssignment`:
`shuffleDraws i` feeds the `Math.random()` draw of the Fisher-Yates step at
index `i`, and `pickDraws k` feeds the recipient pick of the `k`-th loop
iteration. -/
structure Rand where
  shuffleDraws : Nat → Nat
  pickDraws : Nat → Nat

/-- Swap positions `i` and `j` of a list (the JS destructuring swap
`[a[i], a[j]] = [a[j], a[i]]`); out-of-range indices leave the list
unchanged (they cannot occur in `shuffleArray`). -/
def listSwap (l : List String) (i j : Nat) : List String :=
  match l.get? i, l.get? j with
  | some a, some b => (l.set i b).set j a
  | _, _ => l

/-- The Fisher-Yates loop of `shuffleArray`, counting the index `i` down;
at index `i` the swap partner is `j = draw i % (i + 1) ∈ [0, i]`. -/
def shuffleGo (draws : Nat → Nat) (l : List String) : Nat → List String
  | 0 => l
  | i + 1 => shuffleGo draws (listSwap l (i + 1) (draws (i + 1) % (i + 2))) i

/-- `shuffleArray(array)`: Fisher-Yates walk from the last index down to 1. -/
def shuffleArray (draws : Nat → Nat) (l : List String) : List String :=
  shuffleGo draws l (l.length - 1)

/-- The filter computing `validRecipients` for one giver inside
`tryCreateCrossGroupAssignment`: not the giver themselves, not in the
giver's own group, not forbidden, and not already taken as a recipient. -/
def validRecipients (p2g : String → Option String) (forbidden : Forb)
    (r2g : List (String × String)) (giverId : String) (pool : List String) :
    List String :=
  pool.filter fun recipientId =>
    if giverId = recipientId then false
    else if p2g giverId = p2g recipientId then false
    else if isForbidden forbidden giverId recipientId then false
    else if optTruthy (objGet r2g recipientId) then false
    else true

/-- `validRecipients[Math.floor(Math.random() * validRecipients.length)]`:
the uniformly drawn candidate (the draw of iteration `k`, reduced mod the
candidate count). -/
def pickedRecipient (picks : Nat → Nat) (k : Nat) (valid : List String) : String :=
  valid.getD (picks k % valid.length) ""

/-- The main loop of `tryCreateCrossGroupAssignment`: for each unassigned
giver in (shuffled) order, filter the valid recipients; fail the attempt if
none remain, otherwise commit a uniformly drawn one and remove it from the
pool (`splice` of its first occurrence).  `k` counts loop iterations to
index the pick draws. -/
def assignLoop (p2g : String → Option String) (forbidden : Forb)
    (picks : Nat → Nat) :
    List String → List (String × String) → List (String × String) →
    List String → Nat →
    Option (List (String × String) × List (String × String))
  | [], g2r, r2g, _, _ => some (g2r, r2g)
  | giverId :: rest, g2r, r2g, pool, k =>
    if (validRecipients p2g forbidden r2g giverId pool).length = 0 then
      none
    else
      assignLoop p2g forbidden picks rest
        (objSet g2r giverId
          (pickedRecipient picks k (validRecipients p2g forbidden r2g giverId pool)))
        (objSet r2g
          (pickedRecipient picks k (validRecipients p2g forbidden r2g giverId pool))
          giverId)
        (pool.erase
          (pickedRecipient picks k (validRecipients p2g forbidden r2g giverId pool)))
        (k + 1)

/-- The `giverToRecipient` map seeded with the forced assignments. -/
def seedG2R (forced : List (String × String)) : List (String × String) :=
  forced.foldl (fun m f => objSet m f.1 f.2) []

/-- The `recipientToGiver` map seeded with the forced assignments. -/
def seedR2G (forced : List (String × String)) : List (String × String) :=
  forced.foldl (fun m f => objSet m f.2 f.1) []

/-- `tryCreateCrossGroupAssignment(participantIds, personToGroup, forbidden,
forcedAssignments)`: seed the two maps with the forced pairs, compute the
unassigned givers and recipients (`!m[id]` is the JS truthiness test),
shuffle the givers, run the greedy loop, check that `Object.keys` of the
giver map covers exactly `participantIds.length` givers, and emit the
assignment list in `participantIds` order (`.getD ""` stands for the JS
`undefined` read, which the key check rules out on every success path). -/
def tryCreateCrossGroupAssignment (participantIds : List String)
    (p2g : String → Option String) (forbidden : Forb)
    (forced : List (String × String)) (rand : Rand) :
    Option (List (String × String)) :=
  let g2r0 := seedG2R forced
  let r2g0 := seedR2G forced
  let unassignedGivers := participantIds.filter fun id => !optTruthy (objGet g2r0 id)
  let unassignedRecipients := participantIds.filter fun id => !optTruthy (objGet r2g0 id)
  let shuffledGivers := shuffleArray rand.shuffleDraws unassignedGivers
  match assignLoop p2g forbidden rand.pickDraws shuffledGivers g2r0 r2g0
      unassignedRecipients 0 with
  | none => none
  | some (g2r, _) =>
    if (objKeys g2r).length = participantIds.length then
      some (participantIds.map fun giverId => (giverId, (objGet g2r giverId).getD ""))
    else
      none

/-- `personToGroup`: built by iterating the groups and their member lists,
later writes overwriting earlier ones. -/
def buildPersonToGroup (groups : List Group) : String → Option String :=
  groups.foldl
    (fun m g => g.memberIds.foldl
      (fun m' pId => fun x => if x = pId then some g.id else m' x) m)
    (fun _ => none)

/-- The eligible participants: persons whose `personToGroup` entry is truthy. -/
def participantIdsOf (persons : List Person) (p2g : String → Option String) :
    List String :=
  (persons.filter fun p => optTruthy (p2g p.id)).map Person.id

/-- `getEditionsForOccasion` without the `createdAt` sort (the sort only
reorders the list; every property proved below is invariant under
reordering, and the forbidden map is built from set insertions). -/
def editionsForOccasion (editions : List Edition) (occasionId : String) :
    List Edition :=
  editions.filter fun e => decide (e.occasionId = occasionId)

/-- One historical assignment `a`: rule 4 (`forbidden[a.giverId].add(a.recipientId)`)
then, when `preventReciprocal`, rule 5 (`forbidden[a.recipientId].add(a.giverId)`). -/
def histAdd (preventReciprocal : Bool) (f : Forb) (a : String × String) : Forb :=
  if preventReciprocal then addForb (addForb f a.1 a.2) a.2 a.1
  else addForb f a.1 a.2

/-- One exclusion: rule 6, both directions. -/
def exclAdd (f : Forb) (ex : Exclusion) : Forb :=
  addForb (addForb f ex.person1Id ex.person2Id) ex.person2Id ex.person1Id

/-- The forbidden map as `runShuffle` builds it: keys are exactly the
participant ids (initialised to empty sets); then every historical
assignment `(g, r)` adds `r` to `forbidden[g]` and, when
`preventReciprocal`, `g` to `forbidden[r]`; then every exclusion adds both
directions.  Every add is guarded by key presence (`if (forbidden[x])`). -/
def buildForbidden (participantIds : List String) (prevEditions : List Edition)
    (preventReciprocal : Bool) (exclusions : List Exclusion) : Forb :=
  exclusions.foldl exclAdd
    (prevEditions.foldl
      (fun f e => e.assignments.foldl (histAdd preventReciprocal) f)
      (fun x => if x ∈ participantIds then some [] else none))

/-- The two abort reasons of the inclusion-validation loop. -/
inductive InclusionError where
  | sameGroup (giverId recipientId : String)
  | conflict (giverId recipientId : String)
  deriving DecidableEq, Repr

/-- The inclusion-validation loop of `runShuffle`: skip an inclusion when
either party is not a participant, abort when giver and recipient share a
group (`personToGroup[g] === personToGroup[r]`, with `undefined === undefined`
true), abort when the pair is forbidden, otherwise keep it as a forced
assignment. -/
def validateInclusions (participantIds : List String)
    (p2g : String → Option String) (forbidden : Forb) :
    List Inclusion → Except InclusionError (List (String × String))
  | [] => .ok []
  | inc :: rest =>
    if inc.giverId ∉ participantIds ∨ inc.recipientId ∉ participantIds then
      validateInclusions participantIds p2g forbidden rest
    else if p2g inc.giverId = p2g inc.recipientId then
      .error (.sameGroup inc.giverId inc.recipientId)
    else if isForbidden forbidden inc.giverId inc.recipientId then
      .error (.conflict inc.giverId inc.recipientId)
    else
      match validateInclusions participantIds p2g forbidden rest with
      | .error e => .error e
      | .ok l => .ok ((inc.giverId, inc.recipientId) :: l)

/-- An inclusion both of whose parties are eligible participants (the ones
the validation loop does not skip). -/
def eligibleIncl (participantIds : List String) (i : Inclusion) : Bool :=
  decide (i.giverId ∈ participantIds) && decide (i.recipientId ∈ participantIds)

/-- An inclusion that makes the validation loop abort: eligible, and either
same-group or forbidden. -/
def badIncl (participantIds : List String) (p2g : String → Option String)
    (forbidden : Forb) (i : Inclusion) : Bool :=
  eligibleIncl participantIds i &&
    (decide (p2g i.giverId = p2g i.recipientId) ||
      isForbidden forbidden i.giverId i.recipientId)

/-- The abort reason the validation loop reports for a bad inclusion: the
same-group check comes first. -/
def inclError (p2g : String → Option String) (i : Inclusion) : InclusionError :=
  if p2g i.giverId = p2g i.recipientId then .sameGroup i.giverId i.recipientId
  else .conflict i.giverId i.recipientId

/-- The retry loop: up to `fuel` further attempts, attempt number `attempt`
next, each attempt with its own randomness `rand attempt`; the first
successful attempt wins. -/
def searchLoop (participantIds : List String) (p2g : String → Option String)
    (forbidden : Forb) (forced : List (String × String)) (rand : Nat → Rand) :
    Nat → Nat → Option (List (String × String))
  | _, 0 => none
  | attempt, fuel + 1 =>
    match tryCreateCrossGroupAssignment participantIds p2g forbidden forced
        (rand attempt) with
    | some result => some result
    | none => searchLoop participantIds p2g forbidden forced rand (attempt + 1) fuel

/-- `MAX_ATTEMPTS`. -/
def MAX_ATTEMPTS : Nat := 1000

/-- Outcome of one `runShuffle` call; each failure constructor corresponds
to one `alert` + early `return` in the source. -/
inductive ShuffleResult where
  | noOccasion
  | tooFewParticipants
  | tooFewGroups
  | inclusionSameGroup (giverId recipientId : String)
  | inclusionConflict (giverId recipientId : String)
  | searchExhausted
  | success (e : Edition)
  deriving DecidableEq, Repr

/-- The `personToGroup` map `runShuffle` builds from the stored groups. -/
def shuffleP2G (st : Store) : String → Option String :=
  buildPersonToGroup st.groups

/-- The eligible participant list `runShuffle` computes. -/
def shuffleParts (st : Store) : List String :=
  participantIdsOf st.persons (buildPersonToGroup st.groups)

/-- The forbidden map `runShuffle` builds for the selected occasion. -/
def shuffleForb (st : Store) (occasionId : String) (preventReciprocal : Bool) : Forb :=
  buildForbidden (shuffleParts st) (editionsForOccasion st.editions occasionId)
    preventReciprocal st.exclusions

/-- `runShuffle()`: validate preconditions, build the constraint structures,
validate inclusions, search with up to `MAX_ATTEMPTS` attempts, and on
success persist exactly one new edition (the JS `editions.push` + `saveData`).
`occasionId` and `preventReciprocal` are the two UI inputs; `newId` stands
for the `generateId()` result and `now` for `Date.now()`. -/
def runShuffle (st : Store) (occasionId : String) (preventReciprocal : Bool)
    (rand : Nat → Rand) (newId : String) (now : Nat) : ShuffleResult × Store :=
  if occasionId = "" then
    (.noOccasion, st)
  else if (shuffleParts st).length < 2 then
    (.tooFewParticipants, st)
  else if (st.groups.filter fun g => decide (0 < g.memberIds.length)).length < 2 then
    (.tooFewGroups, st)
  else
    match validateInclusions (shuffleParts st) (shuffleP2G st)
        (shuffleForb st occasionId preventReciprocal) st.inclusions with
    | .error (.sameGroup g r) => (.inclusionSameGroup g r, st)
    | .error (.conflict g r) => (.inclusionConflict g r, st)
    | .ok forcedAssignments =>
      match searchLoop (shuffleParts st) (shuffleP2G st)
          (shuffleForb st occasionId preventReciprocal) forcedAssignments rand
          0 MAX_ATTEMPTS with
      | none => (.searchExhausted, st)
      | some assignments =>
        (.success ⟨newId, occasionId, now, assignments⟩,
          { st with editions := st.editions ++ [⟨newId, occasionId, now, assignments⟩] })

/-- The legacy simple variant `tryCreateAssignment(memberIds, forbidden)`:
shuffle a copy of the member list, pair each member with the next one
cyclically (`shuffled[(i+1) % len]`, i.e. `zip` with `rotate 1`), and reject
the whole attempt on any self-assignment or forbidden pair. -/
def buildCyclePairs (forbidden : Forb) :
    List (String × String) → Option (List (String × String))
  | [] => some []
  | p :: rest =>
    if p.1 = p.2 then none
    else if isForbidden forbidden p.1 p.2 then none
    else
      match buildCyclePairs forbidden rest with
      | some l => some (p :: l)
      | none => none

/-- `tryCreateAssignment` itself. -/
def tryCreateAssignment (memberIds : List String) (forbidden : Forb)
    (draws : Nat → Nat) : Option (List (String × String)) :=
  let shuffled := shuffleArray draws memberIds
  buildCyclePairs forbidden (shuffled.zip (shuffled.rotate 1))

/-- The two checks the simple variant enforces on every emitted pair:
no self-assignment and no forbidden giver→recipient pair. -/
def simpleChecksPass (forbidden : Forb) (out : List (String × String)) : Prop :=
  ∀ p ∈ out, p.1 ≠ p.2 ∧ isForbidden forbidden p.1 p.2 = false

/-- The bookkeeping invariant of the pair of maps `giverToRecipient` /
`recipientToGiver`: distinct keys on both sides, and the maps are mutually
inverse. -/
def MapsInv (g2r r2g : List (String × String)) : Prop :=
  (objKeys g2r).Nodup ∧ (objKeys r2g).Nodup ∧
  (∀ g r, objGet g2r g = some r → objGet r2g r = some g) ∧
  (∀ r g, objGet r2g r = some g → objGet g2r g = some r)

/-! ### Concrete data used to exercise the theorems on closed inputs -/

/-- The all-zero draw stream. -/
def zeroRand : Rand := ⟨fun _ => 0, fun _ => 0⟩

/-- Four participants in two groups: `a, c` in group `1`; `b, d` in group `2`. -/
def wP2G : String → Option String := fun x =>
  if x = "a" then some "1" else if x = "b" then some "2"
  else if x = "c" then some "1" else if x = "d" then some "2" else none

/-- Three participants: `a, c` in group `1`; `b` in group `2`. -/
def cexP2G : String → Option String := fun x =>
  if x = "a" then some "1" else if x = "b" then some "2"
  else if x = "c" then some "1" else none

/-- An empty forbidden map (no keys at all). -/
def noForb : Forb := fun _ => none

/-- Everyone in the same group. -/
def sameGroupP2G : String → Option String := fun _ => some "1"

/-- A store with four persons in two cross groups and one prior edition for
occasion `occ`. -/
def wStore : Store :=
  { persons := [⟨"a", "A"⟩, ⟨"b", "B"⟩, ⟨"c", "C"⟩, ⟨"d", "D"⟩]
  , groups := [⟨"1", "G1", ["a", "c"]⟩, ⟨"2", "G2", ["b", "d"]⟩]
  , editions := [⟨"e1", "occ", 0, [("a", "b"), ("b", "a"), ("c", "d"), ("d", "c")]⟩]
  , exclusions := []
  , inclusions := [] }

/-- The edition a zero-randomness shuffle of `wStore` produces. -/
def wEdition2 : Edition :=
  ⟨"e2", "occ", 5, [("a", "d"), ("b", "c"), ("c", "b"), ("d", "a")]⟩

/-- `wStore` with a same-group inclusion `a → c`. -/
def wStoreC4 : Store :=
  { wStore with inclusions := [⟨"i1", "a", "c"⟩] }

/-- A store with nothing in it. -/
def emptyStore : Store := ⟨[], [], [], [], []⟩

/-! ### Lemmas about the JS-object association maps -/

theorem objKeys_nil : objKeys [] = [] := rfl

theorem objKeys_cons (k v : String) (rest : List (String × String)) :
    objKeys ((k, v) :: rest) = k :: objKeys rest := rfl

theorem objGet_objSet (m : List (String × String)) (k v x : String) :
    objGet (objSet m k v) x = if x = k then some v else objGet m x := by
  induction m with
  | nil =>
    by_cases hx : x = k
    · simp [objSet, objGet, hx]
    · have hx' : ¬ k = x := fun h => hx h.symm
      simp [objSet, objGet, hx, hx']
  | cons p rest ih =>
    obtain ⟨k', v'⟩ := p
    by_cases hk : k' = k
    · subst hk
      by_cases hx : x = k'
      · simp [objSet, objGet, hx]
      · have hx' : ¬ k' = x := fun h => hx h.symm
        simp [objSet, objGet, hx, hx']
    · rw [objSet, if_neg hk]
      by_cases hx : k' = x
      · have hxk : ¬ x = k := fun h => hk (hx.trans h)
        simp [objGet, hx, hxk]
      · simp [objGet, hx, ih]

theorem mem_objKeys_iff_isSome (m : List (String × String)) (x : String) :
    x ∈ objKeys m ↔ (objGet m x).isSome := by
  induction m with
  | nil => simp [objKeys, objGet]
  | cons p rest ih =>
    obtain ⟨k', v'⟩ := p
    rw [objKeys_cons]
    by_cases hx : k' = x
    · simp [objGet, hx]
    · rw [List.mem_cons]
      simp only [objGet, if_neg hx]
      constructor
      · rintro (rfl | h)
        · exact absurd rfl hx
        · exact ih.mp h
      · intro h
        exact Or.inr (ih.mpr h)

theorem objGet_eq_none_iff (m : List (String × String)) (x : String) :
    objGet m x = none ↔ x ∉ objKeys m := by
  rw [mem_objKeys_iff_isSome]
  cases h : objGet m x <;> simp

theorem objKeys_objSet_of_mem (m : List (String × String)) (k v : String)
    (h : k ∈ objKeys m) : objKeys (objSet m k v) = objKeys m := by
  induction m with
  | nil => simp [objKeys] at h
  | cons p rest ih =>
    obtain ⟨k', v'⟩ := p
    rw [objKeys_cons] at h
    by_cases hk : k' = k
    · simp [objSet, hk, objKeys_cons]
    · rcases List.mem_cons.mp h with h' | h'
      · exact absurd h'.symm hk
      · simp [objSet, hk, objKeys_cons, ih h']

theorem objKeys_objSet_of_not_mem (m : List (String × String)) (k v : String)
    (h : k ∉ objKeys m) : objKeys (objSet m k v) = objKeys m ++ [k] := by
  induction m with
  | nil => simp [objSet, objKeys]
  | cons p rest ih =>
    obtain ⟨k', v'⟩ := p
    rw [objKeys_cons] at h
    have h1 : k' ≠ k := fun hh => h (hh ▸ List.mem_cons_self k' _)
    have h2 : k ∉ objKeys rest := fun hh => h (List.mem_cons_of_mem _ hh)
    simp [objSet, fun hh : k' = k => h1 hh, objKeys_cons, ih h2]

theorem mem_objKeys_objSet (m : List (String × String)) (k v x : String) :
    x ∈ objKeys (objSet m k v) ↔ x = k ∨ x ∈ objKeys m := by
  by_cases h : k ∈ objKeys m
  · rw [objKeys_objSet_of_mem m k v h]
    constructor
    · exact Or.inr
    · rintro (rfl | hx)
      · exact h
      · exact hx
  · rw [objKeys_objSet_of_not_mem m k v h]
    simp [or_comm]

theorem objKeys_nodup_objSet (m : List (String × String)) (k v : String)
    (h : (objKeys m).Nodup) : (objKeys (objSet m k v)).Nodup := by
  by_cases hk : k ∈ objKeys m
  · rwa [objKeys_objSet_of_mem m k v hk]
  · rw [objKeys_objSet_of_not_mem m k v hk]
    simpa [List.nodup_append] using ⟨h, hk⟩

/-! ### The Fisher-Yates shuffle produces a permutation -/

theorem get_cons_set_perm :
    ∀ (xs : List String) (m : Nat) (hm : m < xs.length) (x : String),
      (xs.get ⟨m, hm⟩ :: xs.set m x).Perm (x :: xs)
  | y :: ys, 0, _, x => by
    simpa using List.Perm.swap x y ys
  | y :: ys, m + 1, hm, x => by
    have hm' : m < ys.length := by simpa using hm
    have ih := get_cons_set_perm ys m hm' x
    have e1 : (y :: ys).get ⟨m + 1, hm⟩ :: (y :: ys).set (m + 1) x
        = ys.get ⟨m, hm'⟩ :: y :: ys.set m x := by simp [List.get]
    rw [e1]
    have s1 : (ys.get ⟨m, hm'⟩ :: y :: ys.set m x).Perm
        (y :: ys.get ⟨m, hm'⟩ :: ys.set m x) := List.Perm.swap _ _ _
    have s2 : (y :: ys.get ⟨m, hm'⟩ :: ys.set m x).Perm (y :: x :: ys) := ih.cons y
    have s3 : (y :: x :: ys).Perm (x :: y :: ys) := List.Perm.swap _ _ _
    exact (s1.trans s2).trans s3

theorem set_set_perm :
    ∀ (l : List String) (i j : Nat) (hi : i < l.length) (hj : j < l.length),
      ((l.set i (l.get ⟨j, hj⟩)).set j (l.get ⟨i, hi⟩)).Perm l
  | x :: xs, 0, 0, _, _ => by simp
  | x :: xs, 0, j + 1, hi, hj => by
    have hj' : j < xs.length := by simpa using hj
    have : ((x :: xs).set 0 ((x :: xs).get ⟨j + 1, hj⟩)).set (j + 1) ((x :: xs).get ⟨0, hi⟩)
        = xs.get ⟨j, hj'⟩ :: xs.set j x := by simp [List.get]
    rw [this]
    exact get_cons_set_perm xs j hj' x
  | x :: xs, i + 1, 0, hi, hj => by
    have hi' : i < xs.length := by simpa using hi
    have : ((x :: xs).set (i + 1) ((x :: xs).get ⟨0, hj⟩)).set 0 ((x :: xs).get ⟨i + 1, hi⟩)
        = xs.get ⟨i, hi'⟩ :: xs.set i x := by simp [List.get]
    rw [this]
    exact get_cons_set_perm xs i hi' x
  | x :: xs, i + 1, j + 1, hi, hj => by
    have hi' : i < xs.length := by simpa using hi
    have hj' : j < xs.length := by simpa using hj
    have : ((x :: xs).set (i + 1) ((x :: xs).get ⟨j + 1, hj⟩)).set (j + 1)
          ((x :: xs).get ⟨i + 1, hi⟩)
        = x :: ((xs.set i (xs.get ⟨j, hj'⟩)).set j (xs.get ⟨i, hi'⟩)) := by simp [List.get]
    rw [this]
    exact (set_set_perm xs i j hi' hj').cons x

theorem listSwap_perm (l : List String) (i j : Nat) : (listSwap l i j).Perm l := by
  unfold listSwap
  cases hi : l.get? i with
  | none => exact List.Perm.refl l
  | some a =>
    cases hj : l.get? j with
    | none => exact List.Perm.refl l
    | some b =>
      rw [List.get?_eq_some] at hi hj
      obtain ⟨hi', ha⟩ := hi
      obtain ⟨hj', hb⟩ := hj
      subst ha
      subst hb
      exact set_set_perm l i j hi' hj'

theorem shuffleGo_perm (draws : Nat → Nat) :
    ∀ (n : Nat) (l : List String), (shuffleGo draws l n).Perm l
  | 0, l => List.Perm.refl l
  | n + 1, l =>
    (shuffleGo_perm draws n _).trans (listSwap_perm l (n + 1) (draws (n + 1) % (n + 2)))

theorem shuffleArray_perm (draws : Nat → Nat) (l : List String) :
    (shuffleArray draws l).Perm l :=
  shuffleGo_perm draws (l.length - 1) l

theorem shuffleArray_mem_iff (draws : Nat → Nat) (l : List String) (x : String) :
    x ∈ shuffleArray draws l ↔ x ∈ l :=
  (shuffleArray_perm draws l).mem_iff

/-! ### The seed maps built from the forced assignments -/

/-- One generic fold step: insert `(f p, g p)` for each pair `p`. -/
theorem foldl_objSet_get_mem (f g : String × String → String) :
    ∀ (ps : List (String × String)) (m : List (String × String)) (x : String) (r : String),
      objGet (ps.foldl (fun acc p => objSet acc (f p) (g p)) m) x = some r →
      (∃ p ∈ ps, f p = x ∧ g p = r) ∨ objGet m x = some r := by
  intro ps
  induction ps with
  | nil => intro m x r h; exact Or.inr h
  | cons p rest ih =>
    intro m x r h
    rcases ih _ _ _ h with h' | h'
    · obtain ⟨q, hq, h1, h2⟩ := h'
      exact Or.inl ⟨q, List.mem_cons_of_mem _ hq, h1, h2⟩
    · rw [objGet_objSet] at h'
      by_cases hx : x = f p
      · rw [if_pos hx] at h'
        exact Or.inl ⟨p, List.mem_cons_self _ _, hx.symm, Option.some_inj.mp h'⟩
      · rw [if_neg hx] at h'
        exact Or.inr h'

theorem foldl_objSet_get_not_mem (f g : String × String → String) :
    ∀ (ps : List (String × String)) (m : List (String × String)) (x : String),
      (∀ p ∈ ps, f p ≠ x) →
      objGet (ps.foldl (fun acc p => objSet acc (f p) (g p)) m) x = objGet m x := by
  intro ps
  induction ps with
  | nil => intro m x _; rfl
  | cons p rest ih =>
    intro m x h
    have h1 : f p ≠ x := h p (List.mem_cons_self _ _)
    have h2 : ∀ q ∈ rest, f q ≠ x := fun q hq => h q (List.mem_cons_of_mem _ hq)
    rw [List.foldl_cons, ih _ _ h2, objGet_objSet, if_neg (fun hh => h1 hh.symm)]

theorem foldl_objSet_get_congr (f g : String × String → String) :
    ∀ (ps m₁ m₂ : List (String × String)) (x : String),
      objGet m₁ x = objGet m₂ x →
      objGet (ps.foldl (fun acc p => objSet acc (f p) (g p)) m₁) x =
      objGet (ps.foldl (fun acc p => objSet acc (f p) (g p)) m₂) x := by
  intro ps
  induction ps with
  | nil => intro m₁ m₂ x h; exact h
  | cons r rs ihr =>
    intro m₁ m₂ x h
    rw [List.foldl_cons, List.foldl_cons]
    apply ihr
    rw [objGet_objSet, objGet_objSet, h]

theorem foldl_objSet_get_of_mem (f g : String × String → String)
    (ps : List (String × String)) (hnd : (ps.map f).Nodup) (p : String × String)
    (hp : p ∈ ps) :
    objGet (ps.foldl (fun acc p => objSet acc (f p) (g p)) []) (f p) = some (g p) := by
  induction ps with
  | nil => cases hp
  | cons q rest ih =>
    rw [List.map_cons, List.nodup_cons] at hnd
    rcases List.mem_cons.mp hp with rfl | hp'
    · rw [List.foldl_cons,
        foldl_objSet_get_not_mem f g rest _ _
          (fun q' hq' hh => hnd.1 (by rw [← hh]; exact List.mem_map_of_mem f hq')),
        objGet_objSet, if_pos rfl]
    · rw [List.foldl_cons]
      have hqp : f q ≠ f p :=
        fun hh => hnd.1 (by rw [hh]; exact List.mem_map_of_mem f hp')
      have heq : objGet (objSet [] (f q) (g q)) (f p) =
          objGet ([] : List (String × String)) (f p) := by
        rw [objGet_objSet, if_neg (fun hh => hqp hh.symm)]
      rw [foldl_objSet_get_congr f g rest _ _ _ heq]
      exact ih hnd.2 hp'

theorem foldl_objSet_keys (f g : String × String → String) :
    ∀ (ps : List (String × String)) (m : List (String × String)) (x : String),
      x ∈ objKeys (ps.foldl (fun acc p => objSet acc (f p) (g p)) m) ↔
        x ∈ objKeys m ∨ ∃ p ∈ ps, f p = x := by
  intro ps
  induction ps with
  | nil => intro m x; simp
  | cons p rest ih =>
    intro m x
    rw [List.foldl_cons, ih, mem_objKeys_objSet]
    constructor
    · rintro ((rfl | h) | h)
      · exact Or.inr ⟨p, List.mem_cons_self _ _, rfl⟩
      · exact Or.inl h
      · obtain ⟨q, hq, hfq⟩ := h
        exact Or.inr ⟨q, List.mem_cons_of_mem _ hq, hfq⟩
    · rintro (h | ⟨q, hq, hfq⟩)
      · exact Or.inl (Or.inr h)
      · rcases List.mem_cons.mp hq with rfl | hq'
        · exact Or.inl (Or.inl hfq.symm)
        · exact Or.inr ⟨q, hq', hfq⟩

theorem seedG2R_get_mem (forced : List (String × String)) (x r : String)
    (h : objGet (seedG2R forced) x = some r) : (x, r) ∈ forced := by
  rcases foldl_objSet_get_mem Prod.fst Prod.snd forced [] x r h with h' | h'
  · obtain ⟨p, hp, h1, h2⟩ := h'
    have : p = (x, r) := Prod.ext h1 h2
    exact this ▸ hp
  · cases h'

theorem seedR2G_get_mem (forced : List (String × String)) (x g : String)
    (h : objGet (seedR2G forced) x = some g) : (g, x) ∈ forced := by
  rcases foldl_objSet_get_mem Prod.snd Prod.fst forced [] x g h with h' | h'
  · obtain ⟨p, hp, h1, h2⟩ := h'
    have : p = (g, x) := Prod.ext h2 h1
    exact this ▸ hp
  · cases h'

theorem seedG2R_get_of_mem (forced : List (String × String))
    (hnd : (forced.map Prod.fst).Nodup) (p : String × String) (hp : p ∈ forced) :
    objGet (seedG2R forced) p.1 = some p.2 :=
  foldl_objSet_get_of_mem Prod.fst Prod.snd forced hnd p hp

theorem seedR2G_get_of_mem (forced : List (String × String))
    (hnd : (forced.map Prod.snd).Nodup) (p : String × String) (hp : p ∈ forced) :
    objGet (seedR2G forced) p.2 = some p.1 :=
  foldl_objSet_get_of_mem Prod.snd Prod.fst forced hnd p hp

theorem mem_objKeys_seedG2R (forced : List (String × String)) (x : String) :
    x ∈ objKeys (seedG2R forced) ↔ ∃ p ∈ forced, p.1 = x := by
  rw [seedG2R, foldl_objSet_keys]
  simp [objKeys]

theorem mem_objKeys_seedR2G (forced : List (String × String)) (x : String) :
    x ∈ objKeys (seedR2G forced) ↔ ∃ p ∈ forced, p.2 = x := by
  rw [seedR2G, foldl_objSet_keys]
  simp [objKeys]

/-! ### The valid-recipient filter -/

theorem mem_validRecipients_iff (p2g : String → Option String) (forbidden : Forb)
    (r2g : List (String × String)) (giverId : String) (pool : List String)
    (r : String) :
    r ∈ validRecipients p2g forbidden r2g giverId pool ↔
      r ∈ pool ∧ giverId ≠ r ∧ p2g giverId ≠ p2g r ∧
      isForbidden forbidden giverId r = false ∧
      optTruthy (objGet r2g r) = false := by
  rw [validRecipients, List.mem_filter]
  constructor
  · rintro ⟨hpool, hcond⟩
    refine ⟨hpool, ?_⟩
    by_cases h1 : giverId = r
    · rw [if_pos h1] at hcond; cases hcond
    · rw [if_neg h1] at hcond
      by_cases h2 : p2g giverId = p2g r
      · rw [if_pos h2] at hcond; cases hcond
      · rw [if_neg h2] at hcond
        by_cases h3 : isForbidden forbidden giverId r = true
        · rw [if_pos h3] at hcond; cases hcond
        · rw [if_neg h3] at hcond
          by_cases h4 : optTruthy (objGet r2g r) = true
          · rw [if_pos h4] at hcond; cases hcond
          · exact ⟨h1, h2, Bool.not_eq_true _ ▸ h3, Bool.not_eq_true _ ▸ h4⟩
  · rintro ⟨hpool, h1, h2, h3, h4⟩
    refine ⟨hpool, ?_⟩
    rw [if_neg h1, if_neg h2, if_neg (by rw [h3]; exact Bool.false_ne_true),
      if_neg (by rw [h4]; exact Bool.false_ne_true)]

theorem getD_mod_mem (l : List String) (n : Nat) (d : String) (h : l.length ≠ 0) :
    l.getD (n % l.length) d ∈ l := by
  have hlt : n % l.length < l.length := Nat.mod_lt n (Nat.pos_of_ne_zero h)
  rw [List.getD_eq_get l d hlt]
  exact l.get_mem _ hlt

theorem pickedRecipient_mem (picks : Nat → Nat) (k : Nat) (valid : List String)
    (h : valid.length ≠ 0) : pickedRecipient picks k valid ∈ valid :=
  getD_mod_mem valid (picks k) "" h

/-! ### Invariants of the assignment loop -/

/-- Weak invariant of `assignLoop`, sufficient for the per-pair properties
(every committed pair passed the structural checks) and for key coverage;
it makes no no-duplicate assumption on the giver list or the pool. -/
theorem assignLoop_weak (p2g : String → Option String) (forbidden : Forb)
    (picks : Nat → Nat) (Q : String → String → Prop) :
    ∀ (givers : List String) (g2r r2g : List (String × String))
      (pool : List String) (k : Nat) (g2r' r2g' : List (String × String)),
      assignLoop p2g forbidden picks givers g2r r2g pool k = some (g2r', r2g') →
      (∀ gv ∈ givers, ∀ r ∈ pool, gv ≠ r → p2g gv ≠ p2g r →
        isForbidden forbidden gv r = false → Q gv r) →
      (∀ x r, objGet g2r x = some r → Q x r) →
      ((∀ x, x ∉ givers → objGet g2r' x = objGet g2r x) ∧
       (∀ x, x ∈ objKeys g2r' → x ∈ objKeys g2r ∨ x ∈ givers) ∧
       (∀ gv ∈ givers, (objGet g2r' gv).isSome) ∧
       (∀ x, (objGet g2r x).isSome → (objGet g2r' x).isSome) ∧
       ((objKeys g2r).Nodup → (objKeys g2r').Nodup) ∧
       (∀ x r, objGet g2r' x = some r → Q x r)) := by
  intro givers
  induction givers with
  | nil =>
    intro g2r r2g pool k g2r' r2g' h _ hEnt
    rw [assignLoop] at h
    obtain ⟨h1, _⟩ := Prod.mk.injEq .. ▸ Option.some_inj.mp h
    subst h1
    exact ⟨fun x _ => rfl, fun x hx => Or.inl hx, fun gv hgv => absurd hgv (List.not_mem_nil gv),
      fun x hx => hx, fun h => h, hEnt⟩
  | cons gv rest ih =>
    intro g2r r2g pool k g2r' r2g' h hQ hEnt
    rw [assignLoop] at h
    by_cases hlen : (validRecipients p2g forbidden r2g gv pool).length = 0
    · rw [if_pos hlen] at h; cases h
    · rw [if_neg hlen] at h
      have hrecMem : pickedRecipient picks k (validRecipients p2g forbidden r2g gv pool)
          ∈ validRecipients p2g forbidden r2g gv pool :=
        pickedRecipient_mem picks k _ hlen
      rw [mem_validRecipients_iff] at hrecMem
      obtain ⟨hrpool, hne, hgrp, hforb, _⟩ := hrecMem
      have hQrec : Q gv (pickedRecipient picks k (validRecipients p2g forbidden r2g gv pool)) :=
        hQ gv (List.mem_cons_self _ _) _ hrpool hne hgrp hforb
      have hQ' : ∀ gv' ∈ rest,
          ∀ r ∈ pool.erase (pickedRecipient picks k (validRecipients p2g forbidden r2g gv pool)),
          gv' ≠ r → p2g gv' ≠ p2g r → isForbidden forbidden gv' r = false → Q gv' r :=
        fun gv' hgv' r hr => hQ gv' (List.mem_cons_of_mem _ hgv') r (List.erase_subset _ _ hr)
      have hEnt' : ∀ x r,
          objGet (objSet g2r gv (pickedRecipient picks k (validRecipients p2g forbidden r2g gv pool))) x
            = some r → Q x r := by
        intro x r hx
        rw [objGet_objSet] at hx
        by_cases hxg : x = gv
        · rw [if_pos hxg] at hx
          rw [hxg, ← Option.some_inj.mp hx]
          exact hQrec
        · rw [if_neg hxg] at hx
          exact hEnt x r hx
      obtain ⟨c1, c2, c3, c4, c5, c6⟩ := ih _ _ _ _ _ _ h hQ' hEnt'
      refine ⟨?_, ?_, ?_, ?_, ?_, c6⟩
      · intro x hx
        have hx1 : x ≠ gv := fun hh => hx (hh ▸ List.mem_cons_self _ _)
        have hx2 : x ∉ rest := fun hh => hx (List.mem_cons_of_mem _ hh)
        rw [c1 x hx2, objGet_objSet, if_neg hx1]
      · intro x hx
        rcases c2 x hx with hx' | hx'
        · rcases (mem_objKeys_objSet _ _ _ _).mp hx' with rfl | hx''
          · exact Or.inr (List.mem_cons_self _ _)
          · exact Or.inl hx''
        · exact Or.inr (List.mem_cons_of_mem _ hx')
      · intro gv' hgv'
        rcases List.mem_cons.mp hgv' with rfl | hgv''
        · apply c4
          rw [objGet_objSet, if_pos rfl]
          rfl
        · exact c3 gv' hgv''
      · intro x hx
        apply c4
        rw [objGet_objSet]
        by_cases hxg : x = gv
        · rw [if_pos hxg]; rfl
        · rw [if_neg hxg]; exact hx
      · intro hnd
        exact c5 (objKeys_nodup_objSet _ _ _ hnd)

/-- Strong invariant of `assignLoop` under no-duplicate hypotheses: the two
maps stay mutually inverse, and the giver keys grow by exactly the processed
giver list, in order. -/
theorem assignLoop_strong (p2g : String → Option String) (forbidden : Forb)
    (picks : Nat → Nat) :
    ∀ (givers : List String) (g2r r2g : List (String × String))
      (pool : List String) (k : Nat) (g2r' r2g' : List (String × String)),
      assignLoop p2g forbidden picks givers g2r r2g pool k = some (g2r', r2g') →
      givers.Nodup →
      (∀ g ∈ givers, objGet g2r g = none) →
      pool.Nodup →
      (∀ r ∈ pool, objGet r2g r = none) →
      MapsInv g2r r2g →
      MapsInv g2r' r2g' ∧ objKeys g2r' = objKeys g2r ++ givers := by
  intro givers
  induction givers with
  | nil =>
    intro g2r r2g pool k g2r' r2g' h _ _ _ _ hInv
    rw [assignLoop] at h
    obtain ⟨h1, h2⟩ := Prod.mk.injEq .. ▸ Option.some_inj.mp h
    subst h1
    subst h2
    exact ⟨hInv, by simp⟩
  | cons gv rest ih =>
    intro g2r r2g pool k g2r' r2g' h hnd hFresh hPoolNd hPool hInv
    rw [List.nodup_cons] at hnd
    rw [assignLoop] at h
    by_cases hlen : (validRecipients p2g forbidden r2g gv pool).length = 0
    · rw [if_pos hlen] at h; cases h
    · rw [if_neg hlen] at h
      have hrecMem : pickedRecipient picks k (validRecipients p2g forbidden r2g gv pool)
          ∈ validRecipients p2g forbidden r2g gv pool :=
        pickedRecipient_mem picks k _ hlen
      rw [mem_validRecipients_iff] at hrecMem
      obtain ⟨hrpool, -, -, -, -⟩ := hrecMem
      have hgvNone : objGet g2r gv = none := hFresh gv (List.mem_cons_self _ _)
      have hrcNone : objGet r2g
          (pickedRecipient picks k (validRecipients p2g forbidden r2g gv pool)) = none :=
        hPool _ hrpool
      have hgvNotKey : gv ∉ objKeys g2r := (objGet_eq_none_iff _ _).mp hgvNone
      have hrcNotKey :
          pickedRecipient picks k (validRecipients p2g forbidden r2g gv pool)
            ∉ objKeys r2g := (objGet_eq_none_iff _ _).mp hrcNone
      obtain ⟨hk1, hk2, hfwd, hbwd⟩ := hInv
      have hInv' : MapsInv
          (objSet g2r gv (pickedRecipient picks k (validRecipients p2g forbidden r2g gv pool)))
          (objSet r2g (pickedRecipient picks k (validRecipients p2g forbidden r2g gv pool)) gv) := by
        refine ⟨objKeys_nodup_objSet _ _ _ hk1, objKeys_nodup_objSet _ _ _ hk2, ?_, ?_⟩
        · intro g r hg
          rw [objGet_objSet] at hg
          rw [objGet_objSet]
          by_cases hggv : g = gv
          · rw [if_pos hggv] at hg
            have hr := Option.some_inj.mp hg
            rw [if_pos hr.symm, hggv]
          · rw [if_neg hggv] at hg
            by_cases hrrc : r = pickedRecipient picks k (validRecipients p2g forbidden r2g gv pool)
            · exfalso
              have := hfwd g r hg
              rw [hrrc, hrcNone] at this
              cases this
            · rw [if_neg hrrc]
              exact hfwd g r hg
        · intro r g hr
          rw [objGet_objSet] at hr
          rw [objGet_objSet]
          by_cases hrrc : r = pickedRecipient picks k (validRecipients p2g forbidden r2g gv pool)
          · rw [if_pos hrrc] at hr
            have hg := Option.some_inj.mp hr
            rw [if_pos hg.symm, hrrc]
          · rw [if_neg hrrc] at hr
            have := hbwd r g hr
            by_cases hggv : g = gv
            · exfalso
              rw [hggv, hgvNone] at this
              cases this
            · rw [if_neg hggv]
              exact this
      have hFresh' : ∀ g ∈ rest,
          objGet (objSet g2r gv
            (pickedRecipient picks k (validRecipients p2g forbidden r2g gv pool))) g = none := by
        intro g hg
        rw [objGet_objSet, if_neg (fun hh : g = gv => hnd.1 (hh ▸ hg))]
        exact hFresh g (List.mem_cons_of_mem _ hg)
      have hPool' : ∀ r ∈ pool.erase
            (pickedRecipient picks k (validRecipients p2g forbidden r2g gv pool)),
          objGet (objSet r2g
            (pickedRecipient picks k (validRecipients p2g forbidden r2g gv pool)) gv) r = none := by
        intro r hr
        obtain ⟨hrne, hrmem⟩ := (hPoolNd.mem_erase_iff).mp hr
        rw [objGet_objSet, if_neg hrne]
        exact hPool r hrmem
      obtain ⟨cInv, cKeys⟩ := ih _ _ _ _ _ _ h hnd.2 hFresh' (hPoolNd.erase _) hPool' hInv'
      refine ⟨cInv, ?_⟩
      rw [cKeys, objKeys_objSet_of_not_mem _ _ _ hgvNotKey]
      simp

/-! ### Shape of a successful `tryCreateCrossGroupAssignment` -/

theorem tryCreate_some_shape (participantIds : List String)
    (p2g : String → Option String) (forbidden : Forb)
    (forced : List (String × String)) (rand : Rand)
    (out : List (String × String))
    (h : tryCreateCrossGroupAssignment participantIds p2g forbidden forced rand = some out) :
    ∃ g2r' r2g',
      assignLoop p2g forbidden rand.pickDraws
        (shuffleArray rand.shuffleDraws
          (participantIds.filter fun id => !optTruthy (objGet (seedG2R forced) id)))
        (seedG2R forced) (seedR2G forced)
        (participantIds.filter fun id => !optTruthy (objGet (seedR2G forced) id)) 0
        = some (g2r', r2g') ∧
      (objKeys g2r').length = participantIds.length ∧
      out = participantIds.map fun g => (g, (objGet g2r' g).getD "") := by
  rw [tryCreateCrossGroupAssignment] at h
  revert h
  cases hloop : assignLoop p2g forbidden rand.pickDraws
      (shuffleArray rand.shuffleDraws
        (participantIds.filter fun id => !optTruthy (objGet (seedG2R forced) id)))
      (seedG2R forced) (seedR2G forced)
      (participantIds.filter fun id => !optTruthy (objGet (seedR2G forced) id)) 0 with
  | none => intro h; cases h
  | some pr =>
    obtain ⟨g2r', r2g'⟩ := pr
    intro h
    replace h : (if (objKeys g2r').length = participantIds.length then
        some (List.map (fun giverId => (giverId, (objGet g2r' giverId).getD ""))
          participantIds)
      else none) = some out := h
    by_cases hkeys : (objKeys g2r').length = participantIds.length
    · rw [if_pos hkeys] at h
      exact ⟨g2r', r2g', rfl, hkeys, (Option.some_inj.mp h).symm⟩
    · rw [if_neg hkeys] at h
      cases h

theorem optTruthy_false_iff (o : Option String) :
    optTruthy o = false ↔ o = none ∨ o = some "" := by
  cases o with
  | none => simp [optTruthy]
  | some s =>
    simp only [optTruthy, decide_eq_false_iff_not, not_not, Option.some.injEq]
    constructor
    · intro h; exact Or.inr h
    · rintro (h | h)
      · cases h
      · exact h

theorem optTruthy_isSome (o : Option String) (h : optTruthy o = true) : o.isSome := by
  cases o with
  | none => cases h
  | some s => rfl

theorem foldl_objSet_keys_eq (f g : String × String → String) :
    ∀ (ps : List (String × String)) (m : List (String × String)),
      (ps.map f).Nodup → (∀ p ∈ ps, f p ∉ objKeys m) →
      objKeys (ps.foldl (fun acc p => objSet acc (f p) (g p)) m) =
        objKeys m ++ ps.map f := by
  intro ps
  induction ps with
  | nil => intro m _ _; simp
  | cons q rest ih =>
    intro m hnd hdisj
    rw [List.map_cons, List.nodup_cons] at hnd
    rw [List.foldl_cons]
    have hq : f q ∉ objKeys m := hdisj q (List.mem_cons_self _ _)
    have hdisj' : ∀ p ∈ rest, f p ∉ objKeys (objSet m (f q) (g q)) := by
      intro p hp hmem
      rcases (mem_objKeys_objSet _ _ _ _).mp hmem with heq | hmem'
      · exact hnd.1 (heq ▸ List.mem_map_of_mem f hp)
      · exact hdisj p (List.mem_cons_of_mem _ hp) hmem'
    rw [ih _ hnd.2 hdisj', objKeys_objSet_of_not_mem _ _ _ hq]
    simp

theorem seedG2R_keys (forced : List (String × String))
    (hf1 : (forced.map Prod.fst).Nodup) :
    objKeys (seedG2R forced) = forced.map Prod.fst := by
  rw [seedG2R, foldl_objSet_keys_eq Prod.fst Prod.snd forced [] hf1
    (fun p _ h => by cases h)]
  rfl

theorem seedR2G_keys (forced : List (String × String))
    (hf2 : (forced.map Prod.snd).Nodup) :
    objKeys (seedR2G forced) = forced.map Prod.snd := by
  rw [seedR2G, foldl_objSet_keys_eq Prod.snd Prod.fst forced [] hf2
    (fun p _ h => by cases h)]
  rfl

/-- Everything a successful `tryCreateCrossGroupAssignment` guarantees, under
the hypotheses the caller (`runShuffle`) establishes for the forced pairs:
both parties eligible, cross-group, not forbidden, and at most one forced
pair per giver and per recipient; participant ids are non-empty strings. -/
theorem tryCreate_success_props (participantIds : List String)
    (p2g : String → Option String) (forbidden : Forb)
    (forced : List (String × String)) (rand : Rand) (out : List (String × String))
    (h : tryCreateCrossGroupAssignment participantIds p2g forbidden forced rand = some out)
    (hempty : "" ∉ participantIds)
    (hfp : ∀ p ∈ forced, p.1 ∈ participantIds ∧ p.2 ∈ participantIds ∧
      p2g p.1 ≠ p2g p.2 ∧ isForbidden forbidden p.1 p.2 = false)
    (hf1 : (forced.map Prod.fst).Nodup)
    (hf2 : (forced.map Prod.snd).Nodup) :
    out.map Prod.fst = participantIds ∧
    (out.map Prod.snd).Perm participantIds ∧
    participantIds.Nodup ∧
    (∀ p ∈ out, p.1 ≠ p.2 ∧ p2g p.1 ≠ p2g p.2 ∧
      isForbidden forbidden p.1 p.2 = false ∧
      p.1 ∈ participantIds ∧ p.2 ∈ participantIds) ∧
    (∀ p ∈ forced, p ∈ out) := by
  obtain ⟨g2r', r2g', hloop, hkeys, hout⟩ := tryCreate_some_shape _ _ _ _ _ _ h
  have hvalG : ∀ x v, objGet (seedG2R forced) x = some v → v ∈ participantIds :=
    fun x v hv => (hfp _ (seedG2R_get_mem forced x v hv)).2.1
  have hvalR : ∀ x v, objGet (seedR2G forced) x = some v → v ∈ participantIds :=
    fun x v hv => (hfp _ (seedR2G_get_mem forced x v hv)).1
  have hmemUG : ∀ id, (id ∈ participantIds.filter
      fun id => !optTruthy (objGet (seedG2R forced) id)) ↔
      id ∈ participantIds ∧ objGet (seedG2R forced) id = none := by
    intro id
    rw [List.mem_filter]
    constructor
    · rintro ⟨h1, h2⟩
      refine ⟨h1, ?_⟩
      have h2' : optTruthy (objGet (seedG2R forced) id) = false := by
        revert h2; cases optTruthy (objGet (seedG2R forced) id) <;> simp
      rcases (optTruthy_false_iff _).mp h2' with h3 | h3
      · exact h3
      · exact absurd (hvalG _ _ h3) hempty
    · rintro ⟨h1, h2⟩
      refine ⟨h1, ?_⟩
      rw [h2]
      rfl
  have hmemPool : ∀ id, (id ∈ participantIds.filter
      fun id => !optTruthy (objGet (seedR2G forced) id)) ↔
      id ∈ participantIds ∧ objGet (seedR2G forced) id = none := by
    intro id
    rw [List.mem_filter]
    constructor
    · rintro ⟨h1, h2⟩
      refine ⟨h1, ?_⟩
      have h2' : optTruthy (objGet (seedR2G forced) id) = false := by
        revert h2; cases optTruthy (objGet (seedR2G forced) id) <;> simp
      rcases (optTruthy_false_iff _).mp h2' with h3 | h3
      · exact h3
      · exact absurd (hvalR _ _ h3) hempty
    · rintro ⟨h1, h2⟩
      refine ⟨h1, ?_⟩
      rw [h2]
      rfl
  have hmemSG : ∀ id, (id ∈ shuffleArray rand.shuffleDraws (participantIds.filter
      fun id => !optTruthy (objGet (seedG2R forced) id))) ↔
      id ∈ participantIds ∧ objGet (seedG2R forced) id = none := by
    intro id
    rw [shuffleArray_mem_iff]
    exact hmemUG id
  have hQ : ∀ gv ∈ shuffleArray rand.shuffleDraws (participantIds.filter
        fun id => !optTruthy (objGet (seedG2R forced) id)),
      ∀ r ∈ participantIds.filter
        fun id => !optTruthy (objGet (seedR2G forced) id),
      gv ≠ r → p2g gv ≠ p2g r → isForbidden forbidden gv r = false →
      (gv ≠ r ∧ p2g gv ≠ p2g r ∧ isForbidden forbidden gv r = false ∧
        gv ∈ participantIds ∧ r ∈ participantIds) :=
    fun gv hgv r hr h1 h2 h3 =>
      ⟨h1, h2, h3, ((hmemSG gv).mp hgv).1, ((hmemPool r).mp hr).1⟩
  have hEnt : ∀ x r, objGet (seedG2R forced) x = some r →
      (x ≠ r ∧ p2g x ≠ p2g r ∧ isForbidden forbidden x r = false ∧
        x ∈ participantIds ∧ r ∈ participantIds) := by
    intro x r hx
    obtain ⟨m1, m2, m3, m4⟩ := hfp _ (seedG2R_get_mem forced x r hx)
    exact ⟨fun hh => m3 (congrArg p2g hh), m3, m4, m1, m2⟩
  obtain ⟨w1, w2, w3, w4, w5, w6⟩ :=
    assignLoop_weak p2g forbidden rand.pickDraws
      (fun g r => g ≠ r ∧ p2g g ≠ p2g r ∧ isForbidden forbidden g r = false ∧
        g ∈ participantIds ∧ r ∈ participantIds)
      _ _ _ _ _ _ _ hloop hQ hEnt
  have hkeysG0 : objKeys (seedG2R forced) = forced.map Prod.fst :=
    seedG2R_keys forced hf1
  have hkeysNodup : (objKeys g2r').Nodup := w5 (by rw [hkeysG0]; exact hf1)
  have hkeysSub : ∀ x ∈ objKeys g2r', x ∈ participantIds := by
    intro x hx
    rcases w2 x hx with hx' | hx'
    · rw [hkeysG0] at hx'
      obtain ⟨p, hp, hpx⟩ := List.mem_map.mp hx'
      exact hpx ▸ (hfp p hp).1
    · exact ((hmemSG x).mp hx').1
  have hsubdedup : objKeys g2r' ⊆ participantIds.dedup :=
    fun x hx => List.mem_dedup.mpr (hkeysSub x hx)
  have hsp : List.Subperm (objKeys g2r') participantIds.dedup :=
    hkeysNodup.subperm hsubdedup
  have hlen1 : participantIds.length ≤ participantIds.dedup.length := by
    rw [← hkeys]
    exact hsp.length_le
  have hdedupLen : participantIds.dedup.length = participantIds.length :=
    Nat.le_antisymm participantIds.dedup_sublist.length_le hlen1
  have hpartsNodup : participantIds.Nodup :=
    List.dedup_eq_self.mp (participantIds.dedup_sublist.eq_of_length hdedupLen)
  have hsgNodup : (shuffleArray rand.shuffleDraws (participantIds.filter
      fun id => !optTruthy (objGet (seedG2R forced) id))).Nodup :=
    ((shuffleArray_perm _ _).nodup_iff).mpr (hpartsNodup.filter _)
  have hpoolNodup : (participantIds.filter
      fun id => !optTruthy (objGet (seedR2G forced) id)).Nodup :=
    hpartsNodup.filter _
  have hFresh : ∀ g ∈ shuffleArray rand.shuffleDraws (participantIds.filter
      fun id => !optTruthy (objGet (seedG2R forced) id)),
      objGet (seedG2R forced) g = none :=
    fun g hg => ((hmemSG g).mp hg).2
  have hPool : ∀ r ∈ participantIds.filter
      fun id => !optTruthy (objGet (seedR2G forced) id),
      objGet (seedR2G forced) r = none :=
    fun r hr => ((hmemPool r).mp hr).2
  have hInv0 : MapsInv (seedG2R forced) (seedR2G forced) := by
    refine ⟨by rw [hkeysG0]; exact hf1,
      by rw [seedR2G_keys forced hf2]; exact hf2, ?_, ?_⟩
    · intro g r hg
      exact seedR2G_get_of_mem forced hf2 (g, r) (seedG2R_get_mem forced g r hg)
    · intro r g hr
      exact seedG2R_get_of_mem forced hf1 (g, r) (seedR2G_get_mem forced r g hr)
  obtain ⟨⟨k1, k2, fwd, bwd⟩, hkeysEq⟩ :=
    assignLoop_strong p2g forbidden rand.pickDraws
      _ _ _ _ _ _ _ hloop hsgNodup hFresh hpoolNodup hPool hInv0
  have hcover : ∀ g ∈ participantIds, ∃ r, objGet g2r' g = some r := by
    intro g hg
    have hs : (objGet g2r' g).isSome := by
      by_cases h0 : objGet (seedG2R forced) g = none
      · exact w3 g ((hmemSG g).mpr ⟨hg, h0⟩)
      · apply w4
        cases hx : objGet (seedG2R forced) g with
        | none => exact absurd hx h0
        | some v => rfl
    exact Option.isSome_iff_exists.mp hs
  subst hout
  refine ⟨?_, ?_, hpartsNodup, ?_, ?_⟩
  · have e : (Prod.fst ∘ fun g : String => (g, (objGet g2r' g).getD "")) = id := rfl
    rw [List.map_map, e, List.map_id]
  · have hsndNodup : ((participantIds.map
        fun g => (g, (objGet g2r' g).getD "")).map Prod.snd).Nodup := by
      rw [List.map_map]
      apply hpartsNodup.map_on
      intro g1 hg1 g2 hg2 heq
      obtain ⟨r1, hr1⟩ := hcover g1 hg1
      obtain ⟨r2, hr2⟩ := hcover g2 hg2
      have hrr : r1 = r2 := by
        simpa [Function.comp, hr1, hr2] using heq
      have e1 := fwd g1 r1 hr1
      have e2 := fwd g2 r2 hr2
      rw [hrr] at e1
      exact Option.some_inj.mp (e1.symm.trans e2)
    have hsndSub : ((participantIds.map
        fun g => (g, (objGet g2r' g).getD "")).map Prod.snd) ⊆ participantIds := by
      intro r hrm
      rw [List.map_map] at hrm
      obtain ⟨g, hg, hgr⟩ := List.mem_map.mp hrm
      obtain ⟨r', hr'⟩ := hcover g hg
      have hrr : r = r' := by
        simp only [Function.comp, hr'] at hgr
        exact hgr.symm
      rw [hrr]
      exact (w6 g r' hr').2.2.2.2
    have hsndLen : ((participantIds.map
        fun g => (g, (objGet g2r' g).getD "")).map Prod.snd).length
        = participantIds.length := by simp
    exact (hsndNodup.subperm hsndSub).perm_of_length_le (by rw [hsndLen])
  · intro p hp
    obtain ⟨g, hg, hgp⟩ := List.mem_map.mp hp
    obtain ⟨r, hr⟩ := hcover g hg
    have hQp := w6 g r hr
    rw [← hgp]
    simpa [hr] using hQp
  · intro p hp
    have hseed : objGet (seedG2R forced) p.1 = some p.2 :=
      seedG2R_get_of_mem forced hf1 p hp
    have hnotin : p.1 ∉ shuffleArray rand.shuffleDraws (participantIds.filter
        fun id => !optTruthy (objGet (seedG2R forced) id)) := by
      intro hmem
      rw [((hmemSG p.1).mp hmem).2] at hseed
      cases hseed
    have hpres : objGet g2r' p.1 = objGet (seedG2R forced) p.1 := w1 p.1 hnotin
    have hfpeq : (p.1, (objGet g2r' p.1).getD "") = p := by
      rw [hpres, hseed]
      rfl
    rw [← hfpeq]
    exact List.mem_map_of_mem _ (hfp p hp).1

/-- Per-pair property of any successful `tryCreateCrossGroupAssignment`,
with no distinctness assumptions: any property `Q` holding for all forced
pairs and for all cross-group non-forbidden pairs of participants holds for
every emitted pair. -/
theorem tryCreate_out_prop (participantIds : List String)
    (p2g : String → Option String) (forbidden : Forb)
    (forced : List (String × String)) (rand : Rand) (out : List (String × String))
    (Q : String → String → Prop)
    (h : tryCreateCrossGroupAssignment participantIds p2g forbidden forced rand = some out)
    (hfQ : ∀ p ∈ forced, Q p.1 p.2)
    (hQ : ∀ gv r, gv ∈ participantIds → r ∈ participantIds → gv ≠ r →
      p2g gv ≠ p2g r → isForbidden forbidden gv r = false → Q gv r) :
    out.map Prod.fst = participantIds ∧ ∀ p ∈ out, Q p.1 p.2 := by
  obtain ⟨g2r', r2g', hloop, hkeys, hout⟩ := tryCreate_some_shape _ _ _ _ _ _ h
  have hQ' : ∀ gv ∈ shuffleArray rand.shuffleDraws (participantIds.filter
        fun id => !optTruthy (objGet (seedG2R forced) id)),
      ∀ r ∈ participantIds.filter
        fun id => !optTruthy (objGet (seedR2G forced) id),
      gv ≠ r → p2g gv ≠ p2g r → isForbidden forbidden gv r = false → Q gv r := by
    intro gv hgv r hr h1 h2 h3
    rw [shuffleArray_mem_iff] at hgv
    exact hQ gv r (List.mem_filter.mp hgv).1 (List.mem_filter.mp hr).1 h1 h2 h3
  have hEnt : ∀ x r, objGet (seedG2R forced) x = some r → Q x r :=
    fun x r hx => hfQ _ (seedG2R_get_mem forced x r hx)
  obtain ⟨w1, w2, w3, w4, w5, w6⟩ :=
    assignLoop_weak p2g forbidden rand.pickDraws Q _ _ _ _ _ _ _ hloop hQ' hEnt
  have hcover : ∀ g ∈ participantIds, ∃ r, objGet g2r' g = some r := by
    intro g hg
    have hs : (objGet g2r' g).isSome := by
      by_cases ht : optTruthy (objGet (seedG2R forced) g) = true
      · exact w4 g (optTruthy_isSome _ ht)
      · have hf : optTruthy (objGet (seedG2R forced) g) = false :=
          Bool.eq_false_iff.mpr ht
        apply w3
        rw [shuffleArray_mem_iff, List.mem_filter]
        exact ⟨hg, by rw [hf]; rfl⟩
    exact Option.isSome_iff_exists.mp hs
  subst hout
  constructor
  · have e : (Prod.fst ∘ fun g : String => (g, (objGet g2r' g).getD "")) = id := rfl
    rw [List.map_map, e, List.map_id]
  · intro p hp
    obtain ⟨g, hg, hgp⟩ := List.mem_map.mp hp
    obtain ⟨r, hr⟩ := hcover g hg
    rw [← hgp]
    simpa [hr] using w6 g r hr

/-! ### Characterisation of the forbidden map -/

theorem addForb_isSome (f : Forb) (a b x : String) :
    (addForb f a b x).isSome = (f x).isSome := by
  rw [addForb]
  by_cases hx : x = a
  · subst hx
    rw [if_pos rfl]
    cases f x <;> rfl
  · rw [if_neg hx]

theorem forbMem_addForb (f : Forb) (a b x y : String) :
    forbMem (addForb f a b) x y ↔
      forbMem f x y ∨ (x = a ∧ y = b ∧ (f a).isSome) := by
  rw [forbMem, forbMem, addForb]
  by_cases hx : x = a
  · subst hx
    rw [if_pos rfl]
    cases hfa : f x with
    | none =>
      constructor
      · rintro ⟨s, hs, -⟩
        cases hs
      · rintro (⟨s, hs, -⟩ | ⟨-, -, hs⟩)
        · cases hs
        · cases hs
    | some s =>
      constructor
      · rintro ⟨s', hs', hy⟩
        rw [Option.map_some'] at hs'
        rw [← Option.some_inj.mp hs'] at hy
        rcases List.mem_insert_iff.mp hy with hy' | hy'
        · exact Or.inr ⟨rfl, hy', rfl⟩
        · exact Or.inl ⟨s, rfl, hy'⟩
      · rintro (⟨s', hs', hy⟩ | ⟨-, hy, -⟩)
        · refine ⟨s.insert b, by rw [Option.map_some'], ?_⟩
          rw [← Option.some_inj.mp hs'] at hy
          exact List.mem_insert_iff.mpr (Or.inr hy)
        · exact ⟨s.insert b, by rw [Option.map_some'], List.mem_insert_iff.mpr (Or.inl hy)⟩
  · rw [if_neg hx]
    constructor
    · intro h; exact Or.inl h
    · rintro (h | ⟨h1, -, -⟩)
      · exact h
      · exact absurd h1 hx

theorem histAdd_isSome (pr : Bool) (f : Forb) (a : String × String) (x : String) :
    (histAdd pr f a x).isSome = (f x).isSome := by
  rw [histAdd]
  cases pr with
  | false => rw [if_neg (by simp), addForb_isSome]
  | true => rw [if_pos rfl, addForb_isSome, addForb_isSome]

theorem exclAdd_isSome (f : Forb) (ex : Exclusion) (x : String) :
    (exclAdd f ex x).isSome = (f x).isSome := by
  rw [exclAdd, addForb_isSome, addForb_isSome]

theorem forbMem_histAdd (pr : Bool) (f : Forb) (a : String × String) (x y : String) :
    forbMem (histAdd pr f a) x y ↔
      forbMem f x y ∨
        (((x = a.1 ∧ y = a.2) ∨ (pr = true ∧ x = a.2 ∧ y = a.1)) ∧ (f x).isSome) := by
  rw [histAdd]
  cases pr with
  | false =>
    rw [if_neg (by simp), forbMem_addForb]
    constructor
    · rintro (h | ⟨h1, h2, h3⟩)
      · exact Or.inl h
      · exact Or.inr ⟨Or.inl ⟨h1, h2⟩, h1 ▸ h3⟩
    · rintro (h | ⟨(⟨h1, h2⟩ | ⟨h0, -, -⟩), hs⟩)
      · exact Or.inl h
      · exact Or.inr ⟨h1, h2, h1 ▸ hs⟩
      · cases h0
  | true =>
    rw [if_pos rfl, forbMem_addForb, forbMem_addForb, addForb_isSome]
    constructor
    · rintro ((h | ⟨h1, h2, h3⟩) | ⟨h1, h2, h3⟩)
      · exact Or.inl h
      · exact Or.inr ⟨Or.inl ⟨h1, h2⟩, h1 ▸ h3⟩
      · exact Or.inr ⟨Or.inr ⟨rfl, h1, h2⟩, h1 ▸ h3⟩
    · rintro (h | ⟨(⟨h1, h2⟩ | ⟨-, h1, h2⟩), hs⟩)
      · exact Or.inl (Or.inl h)
      · exact Or.inl (Or.inr ⟨h1, h2, h1 ▸ hs⟩)
      · exact Or.inr ⟨h1, h2, h1 ▸ hs⟩

theorem forbMem_exclAdd (f : Forb) (ex : Exclusion) (x y : String) :
    forbMem (exclAdd f ex) x y ↔
      forbMem f x y ∨
        (((x = ex.person1Id ∧ y = ex.person2Id) ∨
          (x = ex.person2Id ∧ y = ex.person1Id)) ∧ (f x).isSome) := by
  rw [exclAdd, forbMem_addForb, forbMem_addForb, addForb_isSome]
  constructor
  · rintro ((h | ⟨h1, h2, h3⟩) | ⟨h1, h2, h3⟩)
    · exact Or.inl h
    · exact Or.inr ⟨Or.inl ⟨h1, h2⟩, h1 ▸ h3⟩
    · exact Or.inr ⟨Or.inr ⟨h1, h2⟩, h1 ▸ h3⟩
  · rintro (h | ⟨(⟨h1, h2⟩ | ⟨h1, h2⟩), hs⟩)
    · exact Or.inl (Or.inl h)
    · exact Or.inl (Or.inr ⟨h1, h2, h1 ▸ hs⟩)
    · exact Or.inr ⟨h1, h2, h1 ▸ hs⟩

theorem histFold_isSome (pr : Bool) :
    ∀ (asg : List (String × String)) (f : Forb) (x : String),
      ((asg.foldl (histAdd pr) f) x).isSome = (f x).isSome := by
  intro asg
  induction asg with
  | nil => intro f x; rfl
  | cons a rest ih =>
    intro f x
    rw [List.foldl_cons, ih, histAdd_isSome]

theorem edFold_isSome (pr : Bool) :
    ∀ (eds : List Edition) (f : Forb) (x : String),
      ((eds.foldl (fun f e => e.assignments.foldl (histAdd pr) f) f) x).isSome
        = (f x).isSome := by
  intro eds
  induction eds with
  | nil => intro f x; rfl
  | cons e rest ih =>
    intro f x
    rw [List.foldl_cons, ih, histFold_isSome]

theorem forbMem_histFold (pr : Bool) :
    ∀ (asg : List (String × String)) (f : Forb) (x y : String),
      forbMem (asg.foldl (histAdd pr) f) x y ↔
        forbMem f x y ∨
          ∃ a ∈ asg, ((x = a.1 ∧ y = a.2) ∨ (pr = true ∧ x = a.2 ∧ y = a.1)) ∧
            (f x).isSome := by
  intro asg
  induction asg with
  | nil => intro f x y; simp
  | cons a rest ih =>
    intro f x y
    rw [List.foldl_cons, ih, forbMem_histAdd, histAdd_isSome]
    constructor
    · rintro ((h | h) | ⟨a', ha', hc, hs⟩)
      · exact Or.inl h
      · exact Or.inr ⟨a, List.mem_cons_self _ _, h.1, h.2⟩
      · exact Or.inr ⟨a', List.mem_cons_of_mem _ ha', hc, hs⟩
    · rintro (h | ⟨a', ha', hc, hs⟩)
      · exact Or.inl (Or.inl h)
      · rcases List.mem_cons.mp ha' with rfl | ha''
        · exact Or.inl (Or.inr ⟨hc, hs⟩)
        · exact Or.inr ⟨a', ha'', hc, hs⟩

theorem forbMem_edFold (pr : Bool) :
    ∀ (eds : List Edition) (f : Forb) (x y : String),
      forbMem (eds.foldl (fun f e => e.assignments.foldl (histAdd pr) f) f) x y ↔
        forbMem f x y ∨
          ∃ e ∈ eds, ∃ a ∈ e.assignments,
            ((x = a.1 ∧ y = a.2) ∨ (pr = true ∧ x = a.2 ∧ y = a.1)) ∧
            (f x).isSome := by
  intro eds
  induction eds with
  | nil => intro f x y; simp
  | cons e rest ih =>
    intro f x y
    rw [List.foldl_cons, ih, forbMem_histFold, histFold_isSome]
    constructor
    · rintro ((h | ⟨a, ha, hc, hs⟩) | ⟨e', he', a, ha, hc, hs⟩)
      · exact Or.inl h
      · exact Or.inr ⟨e, List.mem_cons_self _ _, a, ha, hc, hs⟩
      · exact Or.inr ⟨e', List.mem_cons_of_mem _ he', a, ha, hc, hs⟩
    · rintro (h | ⟨e', he', a, ha, hc, hs⟩)
      · exact Or.inl (Or.inl h)
      · rcases List.mem_cons.mp he' with rfl | he''
        · exact Or.inl (Or.inr ⟨a, ha, hc, hs⟩)
        · exact Or.inr ⟨e', he'', a, ha, hc, hs⟩

theorem forbMem_exclFold :
    ∀ (exs : List Exclusion) (f : Forb) (x y : String),
      forbMem (exs.foldl exclAdd f) x y ↔
        forbMem f x y ∨
          ∃ ex ∈ exs, ((x = ex.person1Id ∧ y = ex.person2Id) ∨
            (x = ex.person2Id ∧ y = ex.person1Id)) ∧ (f x).isSome := by
  intro exs
  induction exs with
  | nil => intro f x y; simp
  | cons ex rest ih =>
    intro f x y
    rw [List.foldl_cons, ih, forbMem_exclAdd, exclAdd_isSome]
    constructor
    · rintro ((h | h) | ⟨ex', hex', hc, hs⟩)
      · exact Or.inl h
      · exact Or.inr ⟨ex, List.mem_cons_self _ _, h.1, h.2⟩
      · exact Or.inr ⟨ex', List.mem_cons_of_mem _ hex', hc, hs⟩
    · rintro (h | ⟨ex', hex', hc, hs⟩)
      · exact Or.inl (Or.inl h)
      · rcases List.mem_cons.mp hex' with rfl | hex''
        · exact Or.inl (Or.inr ⟨hc, hs⟩)
        · exact Or.inr ⟨ex', hex'', hc, hs⟩

theorem isForbidden_iff (f : Forb) (g r : String) :
    isForbidden f g r = true ↔ forbMem f g r := by
  rw [isForbidden, forbMem]
  cases hf : f g with
  | none =>
    constructor
    · intro h; cases h
    · rintro ⟨s, hs, -⟩; cases hs
  | some s =>
    rw [decide_eq_true_eq]
    constructor
    · intro h; exact ⟨s, rfl, h⟩
    · rintro ⟨s', hs', hy⟩
      rw [← Option.some_inj.mp hs'] at hy
      exact hy

theorem buildForbidden_isSome (participantIds : List String)
    (prevEditions : List Edition) (preventReciprocal : Bool)
    (exclusions : List Exclusion) (x : String) :
    ((buildForbidden participantIds prevEditions preventReciprocal exclusions) x).isSome
      ↔ x ∈ participantIds := by
  rw [buildForbidden]
  have h1 : ∀ (f : Forb), ((exclusions.foldl exclAdd f) x).isSome = (f x).isSome := by
    intro f
    induction exclusions generalizing f with
    | nil => rfl
    | cons ex rest ih => rw [List.foldl_cons, ih, exclAdd_isSome]
  rw [h1, edFold_isSome]
  by_cases hx : x ∈ participantIds
  · simp [hx]
  · simp [hx]

/-- Full characterisation of the forbidden set of an eligible giver `g`:
exactly the historical recipients of `g`, plus (under `preventReciprocal`)
the historical givers to `g`, plus the exclusion partners of `g`. -/
theorem buildForbidden_mem (participantIds : List String)
    (prevEditions : List Edition) (preventReciprocal : Bool)
    (exclusions : List Exclusion) (g r : String) (hg : g ∈ participantIds) :
    forbMem (buildForbidden participantIds prevEditions preventReciprocal exclusions) g r ↔
      (∃ e ∈ prevEditions, (g, r) ∈ e.assignments) ∨
      (preventReciprocal = true ∧ ∃ e ∈ prevEditions, (r, g) ∈ e.assignments) ∨
      (∃ ex ∈ exclusions,
        (ex.person1Id = g ∧ ex.person2Id = r) ∨ (ex.person2Id = g ∧ ex.person1Id = r)) := by
  rw [buildForbidden, forbMem_exclFold, forbMem_edFold]
  have hf0 : ∀ y, ¬ forbMem (fun x => if x ∈ participantIds then some ([] : List String) else none) g y := by
    intro y hmem
    obtain ⟨s, hs, hy⟩ := hmem
    replace hs : (if g ∈ participantIds then some ([] : List String) else none) = some s := hs
    by_cases hgp : g ∈ participantIds
    · rw [if_pos hgp] at hs
      rw [← Option.some_inj.mp hs] at hy
      cases hy
    · rw [if_neg hgp] at hs
      cases hs
  have hs0 : ((fun x => if x ∈ participantIds then some ([] : List String) else none) g).isSome = true := by
    show (if g ∈ participantIds then some ([] : List String) else none).isSome = true
    rw [if_pos hg]
    rfl
  have hsEd : (((prevEditions.foldl
      (fun f e => e.assignments.foldl (histAdd preventReciprocal) f)
      (fun x => if x ∈ participantIds then some ([] : List String) else none)) g).isSome) = true := by
    rw [edFold_isSome]
    exact hs0
  constructor
  · rintro ((h | ⟨e, he, a, ha, hc, -⟩) | ⟨ex, hex, hc, -⟩)
    · exact absurd h (hf0 r)
    · rcases hc with ⟨h1, h2⟩ | ⟨hpr, h1, h2⟩
      · refine Or.inl ⟨e, he, ?_⟩
        have : a = (g, r) := Prod.ext h1.symm h2.symm
        exact this ▸ ha
      · refine Or.inr (Or.inl ⟨hpr, e, he, ?_⟩)
        have : a = (r, g) := Prod.ext h2.symm h1.symm
        exact this ▸ ha
    · rcases hc with ⟨h1, h2⟩ | ⟨h1, h2⟩
      · exact Or.inr (Or.inr ⟨ex, hex, Or.inl ⟨h1.symm, h2.symm⟩⟩)
      · exact Or.inr (Or.inr ⟨ex, hex, Or.inr ⟨h1.symm, h2.symm⟩⟩)
  · rintro (⟨e, he, ha⟩ | ⟨hpr, e, he, ha⟩ | ⟨ex, hex, ⟨h1, h2⟩ | ⟨h1, h2⟩⟩)
    · exact Or.inl (Or.inr ⟨e, he, (g, r), ha, Or.inl ⟨rfl, rfl⟩, hs0⟩)
    · exact Or.inl (Or.inr ⟨e, he, (r, g), ha, Or.inr ⟨hpr, rfl, rfl⟩, hs0⟩)
    · exact Or.inr ⟨ex, hex, Or.inl ⟨h1.symm, h2.symm⟩, hsEd⟩
    · exact Or.inr ⟨ex, hex, Or.inr ⟨h1.symm, h2.symm⟩, hsEd⟩

/-! ### The inclusion-validation loop -/

theorem validateInclusions_ok_mem (participantIds : List String)
    (p2g : String → Option String) (forbidden : Forb) :
    ∀ (incs : List Inclusion) (l : List (String × String)),
      validateInclusions participantIds p2g forbidden incs = .ok l →
      ∀ p ∈ l, p.1 ∈ participantIds ∧ p.2 ∈ participantIds ∧
        p2g p.1 ≠ p2g p.2 ∧ isForbidden forbidden p.1 p.2 = false := by
  intro incs
  induction incs with
  | nil =>
    intro l h p hp
    rw [validateInclusions] at h
    rw [← Except.ok.inj h] at hp
    cases hp
  | cons inc rest ih =>
    intro l h p hp
    rw [validateInclusions] at h
    by_cases h1 : inc.giverId ∉ participantIds ∨ inc.recipientId ∉ participantIds
    · rw [if_pos h1] at h
      exact ih l h p hp
    · rw [if_neg h1] at h
      push_neg at h1
      by_cases h2 : p2g inc.giverId = p2g inc.recipientId
      · rw [if_pos h2] at h
        cases h
      · rw [if_neg h2] at h
        by_cases h3 : isForbidden forbidden inc.giverId inc.recipientId = true
        · rw [if_pos h3] at h
          cases h
        · rw [if_neg h3] at h
          cases hrest : validateInclusions participantIds p2g forbidden rest with
          | error e =>
            rw [hrest] at h
            cases h
          | ok l' =>
            rw [hrest] at h
            rw [← Except.ok.inj h] at hp
            rcases List.mem_cons.mp hp with rfl | hp'
            · exact ⟨h1.1, h1.2, h2, Bool.eq_false_iff.mpr h3⟩
            · exact ih l' hrest p hp'

theorem validateInclusions_find_none (participantIds : List String)
    (p2g : String → Option String) (forbidden : Forb) :
    ∀ incs : List Inclusion,
      incs.find? (badIncl participantIds p2g forbidden) = none →
      validateInclusions participantIds p2g forbidden incs =
        .ok ((incs.filter (eligibleIncl participantIds)).map
          fun i => (i.giverId, i.recipientId)) := by
  intro incs
  induction incs with
  | nil => intro _; rfl
  | cons inc rest ih =>
    intro h
    rw [validateInclusions]
    by_cases hb : badIncl participantIds p2g forbidden inc = true
    · rw [List.find?_cons_of_pos _ hb] at h
      cases h
    · rw [List.find?_cons_of_neg _ hb] at h
      have hb' : badIncl participantIds p2g forbidden inc = false :=
        Bool.eq_false_iff.mpr hb
      by_cases h1 : inc.giverId ∉ participantIds ∨ inc.recipientId ∉ participantIds
      · have he : eligibleIncl participantIds inc = false := by
          rw [eligibleIncl]
          rcases h1 with h1 | h1
          · rw [decide_eq_false h1]
            rfl
          · rw [decide_eq_false h1, Bool.and_false]
        rw [if_pos h1, List.filter_cons_of_neg (by rw [he]; exact Bool.false_ne_true)]
        exact ih h
      · push_neg at h1
        have he : eligibleIncl participantIds inc = true := by
          rw [eligibleIncl, decide_eq_true h1.1, decide_eq_true h1.2]
          rfl
        rw [badIncl, he, Bool.true_and, Bool.or_eq_false_iff] at hb'
        have h2 : ¬ p2g inc.giverId = p2g inc.recipientId := by
          have := hb'.1
          rwa [decide_eq_false_iff_not] at this
        rw [if_neg (by push_neg; exact h1), if_neg h2,
          if_neg (by rw [hb'.2]; exact Bool.false_ne_true), ih h,
          List.filter_cons_of_pos he, List.map_cons]

theorem validateInclusions_find_some (participantIds : List String)
    (p2g : String → Option String) (forbidden : Forb) :
    ∀ (incs : List Inclusion) (i : Inclusion),
      incs.find? (badIncl participantIds p2g forbidden) = some i →
      validateInclusions participantIds p2g forbidden incs =
        .error (inclError p2g i) := by
  intro incs
  induction incs with
  | nil => intro i h; cases h
  | cons inc rest ih =>
    intro i h
    rw [validateInclusions]
    by_cases hb : badIncl participantIds p2g forbidden inc = true
    · rw [List.find?_cons_of_pos _ hb] at h
      have hi : inc = i := Option.some_inj.mp h
      subst hi
      rw [badIncl, Bool.and_eq_true] at hb
      have he := hb.1
      rw [eligibleIncl, Bool.and_eq_true, decide_eq_true_eq, decide_eq_true_eq] at he
      rw [if_neg (by push_neg; exact he)]
      rcases Bool.or_eq_true_iff.mp hb.2 with h2 | h2
      · rw [decide_eq_true_eq] at h2
        rw [if_pos h2, inclError, if_pos h2]
      · by_cases hsame : p2g inc.giverId = p2g inc.recipientId
        · rw [if_pos hsame, inclError, if_pos hsame]
        · rw [if_neg hsame, if_pos h2, inclError, if_neg hsame]
    · rw [List.find?_cons_of_neg _ hb] at h
      have hb' : badIncl participantIds p2g forbidden inc = false :=
        Bool.eq_false_iff.mpr hb
      by_cases h1 : inc.giverId ∉ participantIds ∨ inc.recipientId ∉ participantIds
      · rw [if_pos h1]
        exact ih i h
      · push_neg at h1
        have he : eligibleIncl participantIds inc = true := by
          rw [eligibleIncl, decide_eq_true h1.1, decide_eq_true h1.2]
          rfl
        rw [badIncl, he, Bool.true_and, Bool.or_eq_false_iff] at hb'
        have h2 : ¬ p2g inc.giverId = p2g inc.recipientId := by
          have := hb'.1
          rwa [decide_eq_false_iff_not] at this
        rw [if_neg (by push_neg; exact h1), if_neg h2,
          if_neg (by rw [hb'.2]; exact Bool.false_ne_true), ih i h]

/-! ### The bounded retry loop -/

theorem searchLoop_eq_findSome (participantIds : List String)
    (p2g : String → Option String) (forbidden : Forb)
    (forced : List (String × String)) (rand : Nat → Rand) :
    ∀ (fuel attempt : Nat),
      searchLoop participantIds p2g forbidden forced rand attempt fuel =
        (List.range fuel).findSome?
          (fun j => tryCreateCrossGroupAssignment participantIds p2g forbidden
            forced (rand (attempt + j))) := by
  intro fuel
  induction fuel with
  | zero => intro attempt; rfl
  | succ n ih =>
    intro attempt
    rw [searchLoop, List.range_succ_eq_map, List.findSome?_cons]
    cases h : tryCreateCrossGroupAssignment participantIds p2g forbidden forced
        (rand attempt) with
    | some r =>
      simp only [Nat.add_zero, h]
    | none =>
      simp only [Nat.add_zero, h]
      rw [List.findSome?_map, ih (attempt + 1)]
      congr 1
      funext j
      have : attempt + Nat.succ j = attempt + 1 + j := by omega
      simp only [Function.comp, this]

theorem searchLoop_some_exists (participantIds : List String)
    (p2g : String → Option String) (forbidden : Forb)
    (forced : List (String × String)) (rand : Nat → Rand) :
    ∀ (fuel attempt : Nat) (out : List (String × String)),
      searchLoop participantIds p2g forbidden forced rand attempt fuel = some out →
      ∃ i, tryCreateCrossGroupAssignment participantIds p2g forbidden forced
        (rand i) = some out := by
  intro fuel
  induction fuel with
  | zero => intro attempt out h; cases h
  | succ n ih =>
    intro attempt out h
    rw [searchLoop] at h
    cases htry : tryCreateCrossGroupAssignment participantIds p2g forbidden forced
        (rand attempt) with
    | some r =>
      rw [htry] at h
      exact ⟨attempt, htry.trans h⟩
    | none =>
      rw [htry] at h
      exact ih (attempt + 1) out h

/-! ### Shape of the `runShuffle` paths -/

theorem runShuffle_success_shape (st : Store) (oid : String) (pr : Bool)
    (rand : Nat → Rand) (nid : String) (now : Nat) (e : Edition)
    (h : (runShuffle st oid pr rand nid now).1 = .success e) :
    ∃ forced,
      validateInclusions (shuffleParts st) (shuffleP2G st) (shuffleForb st oid pr)
        st.inclusions = .ok forced ∧
      searchLoop (shuffleParts st) (shuffleP2G st) (shuffleForb st oid pr) forced
        rand 0 MAX_ATTEMPTS = some e.assignments ∧
      e.id = nid ∧ e.occasionId = oid ∧ e.createdAt = now ∧
      (runShuffle st oid pr rand nid now).2 =
        { st with editions := st.editions ++ [e] } := by
  rw [runShuffle] at h
  by_cases h0 : oid = ""
  · rw [if_pos h0] at h
    cases h
  · rw [if_neg h0] at h
    by_cases h1 : (shuffleParts st).length < 2
    · rw [if_pos h1] at h
      cases h
    · rw [if_neg h1] at h
      by_cases h2 : (st.groups.filter fun g => decide (0 < g.memberIds.length)).length < 2
      · rw [if_pos h2] at h
        cases h
      · rw [if_neg h2] at h
        cases hv : validateInclusions (shuffleParts st) (shuffleP2G st)
            (shuffleForb st oid pr) st.inclusions with
        | error err =>
          cases err with
          | sameGroup g r =>
            rw [hv] at h
            cases h
          | conflict g r =>
            rw [hv] at h
            cases h
        | ok forced =>
          rw [hv] at h
          replace h : (match searchLoop (shuffleParts st) (shuffleP2G st)
                (shuffleForb st oid pr) forced rand 0 MAX_ATTEMPTS with
              | none => ((ShuffleResult.searchExhausted, st) : ShuffleResult × Store)
              | some assignments =>
                (ShuffleResult.success ⟨nid, oid, now, assignments⟩,
                  { st with editions :=
                      st.editions ++ [(⟨nid, oid, now, assignments⟩ : Edition)] })).1 =
              ShuffleResult.success e := h
          cases hs : searchLoop (shuffleParts st) (shuffleP2G st)
              (shuffleForb st oid pr) forced rand 0 MAX_ATTEMPTS with
          | none =>
            rw [hs] at h
            cases h
          | some assignments =>
            rw [hs] at h
            have he : (⟨nid, oid, now, assignments⟩ : Edition) = e :=
              ShuffleResult.success.inj h
            refine ⟨forced, rfl, ?_, ?_, ?_, ?_, ?_⟩
            · rw [← he]
              exact hs
            · rw [← he]
            · rw [← he]
            · rw [← he]
            · rw [runShuffle, if_neg h0, if_neg h1, if_neg h2, hv]
              show (match searchLoop (shuffleParts st) (shuffleP2G st)
                    (shuffleForb st oid pr) forced rand 0 MAX_ATTEMPTS with
                  | none => ((ShuffleResult.searchExhausted, st) : ShuffleResult × Store)
                  | some assignments =>
                    (ShuffleResult.success ⟨nid, oid, now, assignments⟩,
                      { st with editions := st.editions ++
                        [(⟨nid, oid, now, assignments⟩ : Edition)] })).2 =
                { st with editions := st.editions ++ [e] }
              rw [hs]
              show { st with editions := st.editions ++
                  [(⟨nid, oid, now, assignments⟩ : Edition)] } =
                { st with editions := st.editions ++ [e] }
              rw [he]

theorem runShuffle_failure_state (st : Store) (oid : String) (pr : Bool)
    (rand : Nat → Rand) (nid : String) (now : Nat)
    (h : ∀ e : Edition, (runShuffle st oid pr rand nid now).1 ≠ .success e) :
    (runShuffle st oid pr rand nid now).2 = st := by
  rw [runShuffle]
  by_cases h0 : oid = ""
  · rw [if_pos h0]
  · rw [if_neg h0]
    by_cases h1 : (shuffleParts st).length < 2
    · rw [if_pos h1]
    · rw [if_neg h1]
      by_cases h2 : (st.groups.filter fun g => decide (0 < g.memberIds.length)).length < 2
      · rw [if_pos h2]
      · rw [if_neg h2]
        cases hv : validateInclusions (shuffleParts st) (shuffleP2G st)
            (shuffleForb st oid pr) st.inclusions with
        | error err =>
          cases err with
          | sameGroup g r => rfl
          | conflict g r => rfl
        | ok forced =>
          show (match searchLoop (shuffleParts st) (shuffleP2G st)
                (shuffleForb st oid pr) forced rand 0 MAX_ATTEMPTS with
              | none => ((ShuffleResult.searchExhausted, st) : ShuffleResult × Store)
              | some assignments =>
                (ShuffleResult.success ⟨nid, oid, now, assignments⟩,
                  { st with editions := st.editions ++
                    [(⟨nid, oid, now, assignments⟩ : Edition)] })).2 = st
          cases hs : searchLoop (shuffleParts st) (shuffleP2G st)
              (shuffleForb st oid pr) forced rand 0 MAX_ATTEMPTS with
          | none => rfl
          | some assignments =>
            exfalso
            apply h ⟨nid, oid, now, assignments⟩
            rw [runShuffle, if_neg h0, if_neg h1, if_neg h2, hv]
            show (match searchLoop (shuffleParts st) (shuffleP2G st)
                  (shuffleForb st oid pr) forced rand 0 MAX_ATTEMPTS with
                | none => ((ShuffleResult.searchExhausted, st) : ShuffleResult × Store)
                | some assignments =>
                  (ShuffleResult.success ⟨nid, oid, now, assignments⟩,
                    { st with editions := st.editions ++
                      [(⟨nid, oid, now, assignments⟩ : Edition)] })).1 =
              ShuffleResult.success ⟨nid, oid, now, assignments⟩
            rw [hs]

/-! ### The simple (legacy) variant -/

theorem buildCyclePairs_some (forbidden : Forb) :
    ∀ (ps l : List (String × String)), buildCyclePairs forbidden ps = some l →
      l = ps ∧ ∀ p ∈ ps, p.1 ≠ p.2 ∧ isForbidden forbidden p.1 p.2 = false := by
  intro ps
  induction ps with
  | nil =>
    intro l h
    rw [buildCyclePairs] at h
    exact ⟨(Option.some_inj.mp h).symm, fun p hp => absurd hp (List.not_mem_nil p)⟩
  | cons p rest ih =>
    intro l h
    rw [buildCyclePairs] at h
    by_cases h1 : p.1 = p.2
    · rw [if_pos h1] at h
      cases h
    · rw [if_neg h1] at h
      by_cases h2 : isForbidden forbidden p.1 p.2 = true
      · rw [if_pos h2] at h
        cases h
      · rw [if_neg h2] at h
        cases hr : buildCyclePairs forbidden rest with
        | none =>
          rw [hr] at h
          cases h
        | some l' =>
          rw [hr] at h
          obtain ⟨hl', hprops⟩ := ih l' hr
          refine ⟨?_, ?_⟩
          · rw [← Option.some_inj.mp h, hl']
          · intro q hq
            rcases List.mem_cons.mp hq with rfl | hq'
            · exact ⟨h1, Bool.eq_false_iff.mpr h2⟩
            · exact hprops q hq'

theorem tryCreateAssignment_some (memberIds : List String) (forbidden : Forb)
    (draws : Nat → Nat) (out : List (String × String))
    (h : tryCreateAssignment memberIds forbidden draws = some out) :
    out = (shuffleArray draws memberIds).zip ((shuffleArray draws memberIds).rotate 1) ∧
    simpleChecksPass forbidden out := by
  rw [tryCreateAssignment] at h
  obtain ⟨hl, hprops⟩ := buildCyclePairs_some forbidden _ _ h
  subst hl
  exact ⟨rfl, hprops⟩

/-- The simple variant's successes satisfy exactly the checks it enforces. -/
theorem tryCreateAssignment_checks (memberIds : List String) (forbidden : Forb)
    (draws : Nat → Nat) (out : List (String × String))
    (h : tryCreateAssignment memberIds forbidden draws = some out) :
    simpleChecksPass forbidden out :=
  (tryCreateAssignment_some memberIds forbidden draws out h).2

/-! ### The claims -/

/-- Claim C1 is false as stated: `tryCreateCrossGroupAssignment` performs no
validation of the forced-pair list, so quantifying over every forced-pair
list admits results violating the claimed properties.  Concretely, a forced
self-pair `(a, a)` is emitted verbatim in a successful result, violating
"no participant is assigned to themselves". -/
theorem claim_C1_counterexample :
    ¬ ∀ (participantIds : List String) (p2g : String → Option String)
        (forbidden : Forb) (forced : List (String × String)) (rand : Rand)
        (out : List (String × String)),
        tryCreateCrossGroupAssignment participantIds p2g forbidden forced rand
          = some out →
        ∀ p ∈ out, p.1 ≠ p.2 := by
  intro hall
  exact hall ["a", "b", "c"] cexP2G noForb [("a", "a")] zeroRand
    [("a", "a"), ("b", "c"), ("c", "b")] rfl ("a", "a") (by simp) rfl

/-- Claim C1 (amended): for every participant list without the empty-string
id, every forced-pair list whose pairs are between eligible participants,
cross-group, not forbidden, with at most one forced pair per giver and per
recipient (exactly what `runShuffle`'s validation and the inclusion 1:1
constraint provide), every non-null result of `tryCreateCrossGroupAssignment`
is a bijection over the eligible participants — the giver ids equal the
participant list verbatim (canonical order, no repeats) and the recipient
ids are a permutation of it — in which no participant is assigned to
themselves, no giver and recipient share a group, no recipient lies in the
giver's forbidden set, and every forced pair appears verbatim. -/
theorem claim_C1_amended (participantIds : List String)
    (p2g : String → Option String) (forbidden : Forb)
    (forced : List (String × String)) (rand : Rand) (out : List (String × String))
    (hempty : "" ∉ participantIds)
    (hfp : ∀ p ∈ forced, p.1 ∈ participantIds ∧ p.2 ∈ participantIds ∧
      p2g p.1 ≠ p2g p.2 ∧ isForbidden forbidden p.1 p.2 = false)
    (hf1 : (forced.map Prod.fst).Nodup) (hf2 : (forced.map Prod.snd).Nodup)
    (h : tryCreateCrossGroupAssignment participantIds p2g forbidden forced rand
      = some out) :
    out.map Prod.fst = participantIds ∧
    (out.map Prod.snd).Perm participantIds ∧
    (out.map Prod.fst).Nodup ∧ (out.map Prod.snd).Nodup ∧
    (∀ p ∈ out, p.1 ≠ p.2 ∧ p2g p.1 ≠ p2g p.2 ∧
      isForbidden forbidden p.1 p.2 = false) ∧
    (∀ p ∈ forced, p ∈ out) := by
  obtain ⟨c1, c2, c3, c4, c5⟩ :=
    tryCreate_success_props participantIds p2g forbidden forced rand out h
      hempty hfp hf1 hf2
  refine ⟨c1, c2, ?_, ?_, ?_, c5⟩
  · rw [c1]
    exact c3
  · exact c2.nodup_iff.mpr c3
  · intro p hp
    obtain ⟨d1, d2, d3, -, -⟩ := c4 p hp
    exact ⟨d1, d2, d3⟩

/-- Witness for C1 (amended) at a concrete input: four participants in two
groups, the forced pair `(a, b)`, zero randomness. -/
theorem claim_C1_witness :
    ([("a", "b"), ("b", "c"), ("c", "d"), ("d", "a")] : List (String × String)).map
        Prod.fst = ["a", "b", "c", "d"] ∧
    (([("a", "b"), ("b", "c"), ("c", "d"), ("d", "a")] : List (String × String)).map
        Prod.snd).Perm ["a", "b", "c", "d"] ∧
    (([("a", "b"), ("b", "c"), ("c", "d"), ("d", "a")] : List (String × String)).map
        Prod.fst).Nodup ∧
    (([("a", "b"), ("b", "c"), ("c", "d"), ("d", "a")] : List (String × String)).map
        Prod.snd).Nodup ∧
    (∀ p ∈ ([("a", "b"), ("b", "c"), ("c", "d"), ("d", "a")] : List (String × String)),
      p.1 ≠ p.2 ∧ wP2G p.1 ≠ wP2G p.2 ∧ isForbidden noForb p.1 p.2 = false) ∧
    (∀ p ∈ ([("a", "b")] : List (String × String)),
      p ∈ ([("a", "b"), ("b", "c"), ("c", "d"), ("d", "a")] : List (String × String))) :=
  claim_C1_amended ["a", "b", "c", "d"] wP2G noForb [("a", "b")] zeroRand
    [("a", "b"), ("b", "c"), ("c", "d"), ("d", "a")]
    (by decide) (by decide) (by decide) (by decide) rfl

/-- Claim C2: every assignment of an edition persisted by `runShuffle` is
absent from every previously stored edition of the same occasion. -/
theorem claim_C2 (st : Store) (oid : String) (pr : Bool) (rand : Nat → Rand)
    (nid : String) (now : Nat) (e : Edition)
    (h : (runShuffle st oid pr rand nid now).1 = .success e) :
    ∀ ed ∈ st.editions, ed.occasionId = oid →
      ∀ p ∈ e.assignments, p ∉ ed.assignments := by
  obtain ⟨forced, hv, hs, -, -, -, -⟩ :=
    runShuffle_success_shape st oid pr rand nid now e h
  obtain ⟨i, htry⟩ := searchLoop_some_exists _ _ _ _ _ _ _ _ hs
  have hforced := validateInclusions_ok_mem _ _ _ _ _ hv
  have hout := tryCreate_out_prop (shuffleParts st) (shuffleP2G st)
    (shuffleForb st oid pr) forced (rand i) e.assignments
    (fun g r => g ∈ shuffleParts st ∧
      isForbidden (shuffleForb st oid pr) g r = false)
    htry
    (fun p hp => ⟨(hforced p hp).1, (hforced p hp).2.2.2⟩)
    (fun gv r hgv _ _ _ hforb => ⟨hgv, hforb⟩)
  intro ed hed hocc p hp hpmem
  obtain ⟨hg, hforb⟩ := hout.2 p hp
  have hedin : ed ∈ editionsForOccasion st.editions oid := by
    rw [editionsForOccasion, List.mem_filter]
    exact ⟨hed, decide_eq_true hocc⟩
  have hmem : forbMem (shuffleForb st oid pr) p.1 p.2 := by
    rw [shuffleForb, buildForbidden_mem _ _ _ _ _ _ hg]
    exact Or.inl ⟨ed, hedin, hpmem⟩
  rw [← isForbidden_iff, hforb] at hmem
  cases hmem

/-- Witness for C2: a successful shuffle over `wStore` (one prior edition
for occasion `occ` containing `(a, b)`), whose new edition does not repeat
the prior pair `(a, d)`-wise; concretely, the pair `(a, d)` of the new
edition is not in the prior edition's list. -/
theorem claim_C2_witness :
    (runShuffle wStore "occ" false (fun _ => zeroRand) "e2" 5).1 =
      .success wEdition2 ∧
    (("a", "d") : String × String) ∉
      [(("a", "b") : String × String), ("b", "a"), ("c", "d"), ("d", "c")] :=
  ⟨rfl,
    claim_C2 wStore "occ" false (fun _ => zeroRand) "e2" 5 wEdition2 rfl
      ⟨"e1", "occ", 0, [("a", "b"), ("b", "a"), ("c", "d"), ("d", "c")]⟩
      (by decide) rfl ("a", "d") (by decide)⟩

/-- Claim C3: for every eligible giver `g`, the forbidden set `runShuffle`
builds is exactly the union of the historical recipients of `g` for the
occasion, the historical givers to `g` when `preventReciprocal` is set, and
the exclusion partners of `g` (symmetric). -/
theorem claim_C3 (st : Store) (oid : String) (pr : Bool) (g r : String)
    (hg : g ∈ shuffleParts st) :
    forbMem (shuffleForb st oid pr) g r ↔
      (∃ e ∈ editionsForOccasion st.editions oid, (g, r) ∈ e.assignments) ∨
      (pr = true ∧ ∃ e ∈ editionsForOccasion st.editions oid, (r, g) ∈ e.assignments) ∨
      (∃ ex ∈ st.exclusions,
        (ex.person1Id = g ∧ ex.person2Id = r) ∨
        (ex.person2Id = g ∧ ex.person1Id = r)) := by
  rw [shuffleForb]
  exact buildForbidden_mem _ _ _ _ g r hg

/-- Witness for C3 on `wStore`: giver `a` is eligible, and `b` is forbidden
for `a` exactly because edition `e1` contains `(a, b)`. -/
theorem claim_C3_witness :
    ("a" : String) ∈ shuffleParts wStore ∧
    (forbMem (shuffleForb wStore "occ" false) "a" "b" ↔
      (∃ e ∈ editionsForOccasion wStore.editions "occ", (("a" : String), ("b" : String)) ∈ e.assignments) ∨
      (false = true ∧ ∃ e ∈ editionsForOccasion wStore.editions "occ", (("b" : String), ("a" : String)) ∈ e.assignments) ∨
      (∃ ex ∈ wStore.exclusions,
        (ex.person1Id = "a" ∧ ex.person2Id = "b") ∨
        (ex.person2Id = "a" ∧ ex.person1Id = "b"))) :=
  ⟨by decide, claim_C3 wStore "occ" false "a" "b" (by decide)⟩

/-- Claim C4: the inclusion validation of `runShuffle` skips (silently) the
inclusions with an ineligible party, accepts every other conflict-free
inclusion as a forced pair (in order), and aborts on the first eligible
inclusion that is same-group or forbidden — identifying it and its reason
(same-group checked first) — leaving the store untouched and reporting the
same error for every randomness, i.e. before any search attempt. -/
theorem claim_C4 (st : Store) (oid : String) (pr : Bool) (rand : Nat → Rand)
    (nid : String) (now : Nat) :
    (st.inclusions.find?
        (badIncl (shuffleParts st) (shuffleP2G st) (shuffleForb st oid pr)) = none →
      validateInclusions (shuffleParts st) (shuffleP2G st) (shuffleForb st oid pr)
        st.inclusions =
        .ok ((st.inclusions.filter (eligibleIncl (shuffleParts st))).map
          fun i => (i.giverId, i.recipientId))) ∧
    (∀ i : Inclusion,
      st.inclusions.find?
        (badIncl (shuffleParts st) (shuffleP2G st) (shuffleForb st oid pr)) = some i →
      validateInclusions (shuffleParts st) (shuffleP2G st) (shuffleForb st oid pr)
          st.inclusions = .error (inclError (shuffleP2G st) i) ∧
      (oid ≠ "" → ¬ (shuffleParts st).length < 2 →
        ¬ (st.groups.filter fun g => decide (0 < g.memberIds.length)).length < 2 →
        runShuffle st oid pr rand nid now =
          ((if (shuffleP2G st) i.giverId = (shuffleP2G st) i.recipientId
            then ShuffleResult.inclusionSameGroup i.giverId i.recipientId
            else ShuffleResult.inclusionConflict i.giverId i.recipientId), st))) := by
  constructor
  · exact validateInclusions_find_none _ _ _ st.inclusions
  · intro i hfind
    have hv := validateInclusions_find_some _ _ _ st.inclusions i hfind
    refine ⟨hv, ?_⟩
    intro h0 h1 h2
    rw [runShuffle, if_neg h0, if_neg h1, if_neg h2, hv]
    rw [inclError]
    by_cases hsame : (shuffleP2G st) i.giverId = (shuffleP2G st) i.recipientId
    · rw [if_pos hsame, if_pos hsame]
    · rw [if_neg hsame, if_neg hsame]

/-- Witness for C4 on `wStoreC4`, whose single inclusion `a → c` pairs two
members of group `1`: the whole operation aborts with the same-group error
naming `a` and `c`, with the store unchanged, for the zero randomness. -/
theorem claim_C4_witness :
    runShuffle wStoreC4 "occ" false (fun _ => zeroRand) "x" 0 =
      (.inclusionSameGroup "a" "c", wStoreC4) :=
  ((claim_C4 wStoreC4 "occ" false (fun _ => zeroRand) "x" 0).2
    ⟨"i1", "a", "c"⟩ rfl).2 (by decide) (by decide) (by decide)

/-- Claim C5: `runShuffle` fails fast, as an ordinary result value with the
store untouched and independently of the randomness, when no occasion is
selected, or fewer than 2 eligible participants exist, or fewer than 2
groups have a member — in that order of checks. -/
theorem claim_C5 (st : Store) (oid : String) (pr : Bool) (rand : Nat → Rand)
    (nid : String) (now : Nat) :
    (oid = "" → runShuffle st oid pr rand nid now = (.noOccasion, st)) ∧
    (oid ≠ "" → (shuffleParts st).length < 2 →
      runShuffle st oid pr rand nid now = (.tooFewParticipants, st)) ∧
    (oid ≠ "" → ¬ (shuffleParts st).length < 2 →
      (st.groups.filter fun g => decide (0 < g.memberIds.length)).length < 2 →
      runShuffle st oid pr rand nid now = (.tooFewGroups, st)) := by
  refine ⟨?_, ?_, ?_⟩
  · intro h0
    rw [runShuffle, if_pos h0]
  · intro h0 h1
    rw [runShuffle, if_neg h0, if_pos h1]
  · intro h0 h1 h2
    rw [runShuffle, if_neg h0, if_neg h1, if_pos h2]

/-- Witness for C5: with no occasion selected the result is the no-occasion
report and the (empty) store is unchanged. -/
theorem claim_C5_witness :
    runShuffle emptyStore "" false (fun _ => zeroRand) "x" 0 =
      (.noOccasion, emptyStore) :=
  (claim_C5 emptyStore "" false (fun _ => zeroRand) "x" 0).1 rfl

/-- Claim C6: `runShuffle` is atomic over the editions store: on success the
new store is the old one with exactly the one new edition (fresh id, the
occasion reference, the current timestamp, the found assignment list)
appended, and on every failure path the store is returned unchanged. -/
theorem claim_C6 (st : Store) (oid : String) (pr : Bool) (rand : Nat → Rand)
    (nid : String) (now : Nat) :
    (∀ e : Edition, (runShuffle st oid pr rand nid now).1 = .success e →
      (runShuffle st oid pr rand nid now).2 =
        { st with editions := st.editions ++ [e] } ∧
      e.id = nid ∧ e.occasionId = oid ∧ e.createdAt = now) ∧
    ((∀ e : Edition, (runShuffle st oid pr rand nid now).1 ≠ .success e) →
      (runShuffle st oid pr rand nid now).2 = st) := by
  constructor
  · intro e h
    obtain ⟨-, -, -, h1, h2, h3, h4⟩ :=
      runShuffle_success_shape st oid pr rand nid now e h
    exact ⟨h4, h1, h2, h3⟩
  · exact runShuffle_failure_state st oid pr rand nid now

/-- Witness for C6: the successful run over `wStore` appends exactly
`wEdition2` (id `e2`, occasion `occ`, timestamp 5). -/
theorem claim_C6_witness :
    (runShuffle wStore "occ" false (fun _ => zeroRand) "e2" 5).2 =
      { wStore with editions := wStore.editions ++ [wEdition2] } ∧
    wEdition2.id = "e2" ∧ wEdition2.occasionId = "occ" ∧ wEdition2.createdAt = 5 :=
  (claim_C6 wStore "occ" false (fun _ => zeroRand) "e2" 5).1 wEdition2 rfl

/-- Claim C7: the search phase is the bounded retry loop: it equals the
first success among the attempts `0, 1, …, MAX_ATTEMPTS - 1 = 999` in
order (so it invokes `tryCreateCrossGroupAssignment` at most 1000 times and
stops at the first success; it is a total function, so it terminates on
every input), and it reports exhaustion exactly when all 1000 attempts
fail. -/
theorem claim_C7 (participantIds : List String) (p2g : String → Option String)
    (forbidden : Forb) (forced : List (String × String)) (rand : Nat → Rand) :
    searchLoop participantIds p2g forbidden forced rand 0 MAX_ATTEMPTS =
      (List.range MAX_ATTEMPTS).findSome?
        (fun i => tryCreateCrossGroupAssignment participantIds p2g forbidden
          forced (rand i)) ∧
    (searchLoop participantIds p2g forbidden forced rand 0 MAX_ATTEMPTS = none ↔
      ∀ i < MAX_ATTEMPTS, tryCreateCrossGroupAssignment participantIds p2g
        forbidden forced (rand i) = none) := by
  have h := searchLoop_eq_findSome participantIds p2g forbidden forced rand
    MAX_ATTEMPTS 0
  simp only [Nat.zero_add] at h
  refine ⟨h, ?_⟩
  rw [h, List.findSome?_eq_none_iff]
  constructor
  · intro hall i hi
    exact hall i (List.mem_range.mpr hi)
  · intro hall x hx
    exact hall x (List.mem_range.mp hx)

/-- Witness for C7: two participants of one single group can never be
matched, so the loop exhausts its budget and reports a single failure. -/
theorem claim_C7_witness :
    searchLoop ["a", "b"] sameGroupP2G noForb [] (fun _ => zeroRand)
      0 MAX_ATTEMPTS = none :=
  (claim_C7 ["a", "b"] sameGroupP2G noForb [] (fun _ => zeroRand)).2.mpr
    (fun _ _ => rfl)

/-- Claim C8: `shuffleArray` is the in-place Fisher-Yates walk (index `i`
from last down to 1, swap with a uniformly drawn index in `[0, i]`): for
every input list and every draw stream the result is a rearrangement
(permutation) of the input, with no other effect, and the empty and
singleton lists are returned unchanged (no failure mode). -/
theorem claim_C8 (draws : Nat → Nat) (l : List String) :
    (shuffleArray draws l).Perm l ∧
    (l.length ≤ 1 → shuffleArray draws l = l) := by
  refine ⟨shuffleArray_perm draws l, ?_⟩
  intro h
  rw [shuffleArray]
  have h0 : l.length - 1 = 0 := by omega
  rw [h0, shuffleGo]

/-- Witness for C8 at a singleton list. -/
theorem claim_C8_witness :
    (shuffleArray (fun _ => 0) ["a"]).Perm ["a"] ∧
    shuffleArray (fun _ => 0) ["a"] = ["a"] :=
  ⟨(claim_C8 (fun _ => 0) ["a"]).1, (claim_C8 (fun _ => 0) ["a"]).2 (by decide)⟩

/-- Claim C9: with no forced pairs (the default of the richer variant),
every successful result of `tryCreateCrossGroupAssignment` satisfies all
the constraints the simpler variant `tryCreateAssignment` enforces: no
self-assignment and no forbidden giver→recipient pair
(`simpleChecksPass`, which `tryCreateAssignment_checks` shows is exactly
what the simpler variant's successes satisfy). -/
theorem claim_C9 (participantIds : List String) (p2g : String → Option String)
    (forbidden : Forb) (rand : Rand) (out : List (String × String))
    (h : tryCreateCrossGroupAssignment participantIds p2g forbidden [] rand
      = some out) :
    simpleChecksPass forbidden out :=
  (tryCreate_out_prop participantIds p2g forbidden [] rand out
    (fun g r => g ≠ r ∧ isForbidden forbidden g r = false) h
    (fun p hp => absurd hp (List.not_mem_nil p))
    (fun _ _ _ _ h1 _ h3 => ⟨h1, h3⟩)).2

/-- Witness for C9 at a concrete success of the richer search. -/
theorem claim_C9_witness :
    simpleChecksPass noForb [("a", "b"), ("b", "a")] :=
  claim_C9 ["a", "b"] wP2G noForb zeroRand [("a", "b"), ("b", "a")] rfl

/-- Claim C10: for a member list of at least two distinct ids, every
non-null result of the simpler `tryCreateAssignment` pairs each member with
the successor in some cyclic ordering of the whole (shuffled) list: a
single cycle of length `n` over all members, never a union of two or more
shorter cycles. -/
theorem claim_C10 (memberIds : List String) (forbidden : Forb)
    (draws : Nat → Nat) (out : List (String × String))
    (hnd : memberIds.Nodup) (hlen : 2 ≤ memberIds.length)
    (h : tryCreateAssignment memberIds forbidden draws = some out) :
    ∃ s : List String, s.Perm memberIds ∧ s.Nodup ∧
      out = s.zip (s.rotate 1) ∧ out.map Prod.fst = s ∧
      out.length = memberIds.length := by
  obtain ⟨hout, -⟩ := tryCreateAssignment_some memberIds forbidden draws out h
  refine ⟨shuffleArray draws memberIds, shuffleArray_perm draws memberIds,
    ((shuffleArray_perm draws memberIds).nodup_iff).mpr hnd, hout, ?_, ?_⟩
  · rw [hout]
    exact List.map_fst_zip _ _ (by rw [List.length_rotate])
  · rw [hout, List.length_zip, List.length_rotate, Nat.min_self,
      (shuffleArray_perm draws memberIds).length_eq]

/-- Witness for C10 at the two-member list `[a, b]` with zero draws. -/
theorem claim_C10_witness :
    (["a", "b"] : List String).Nodup ∧ 2 ≤ (["a", "b"] : List String).length ∧
    ∃ s : List String, s.Perm ["a", "b"] ∧ s.Nodup ∧
      ([("b", "a"), ("a", "b")] : List (String × String)) = s.zip (s.rotate 1) ∧
      ([("b", "a"), ("a", "b")] : List (String × String)).map Prod.fst = s ∧
      ([("b", "a"), ("a", "b")] : List (String × String)).length =
        (["a", "b"] : List String).length :=
  ⟨by decide, by decide,
    claim_C10 ["a", "b"] noForb (fun _ => 0) [("b", "a"), ("a", "b")]
      (by decide) (by decide) rfl⟩

end Presents
